import Mathlib

/-!
Verification of the organization-onboarding automation scripts
(`scripts/add-organization.py`, `scripts/utils/validation.py`,
`scripts/utils/terraform_utils.py`, `scripts/utils/did_utils.py`).

Texts are modelled as `List Char`.  Python regular expressions that the code
uses are hand-compiled, pattern by pattern, into executable matching
functions; each one documents the regex it embeds.  Character classes are
modelled over their ASCII meaning (the code only ever deals with ASCII
configuration files and identifiers).
-/

namespace AwsEdc

abbrev Text := List Char

/-- Turn a string literal into the `List Char` text representation. -/
def lit (s : String) : Text := s.data

/-- ASCII decimal digit, the `\d` class of the source regexes. -/
def isDigitA (c : Char) : Bool := 48 ≤ c.toNat && c.toNat ≤ 57

/-- ASCII lowercase letter, the `[a-z]` class. -/
def isLowerL (c : Char) : Bool := 97 ≤ c.toNat && c.toNat ≤ 122

/-- The `[a-z0-9]` class of `validate_org_name`. -/
def isLowerAlnum (c : Char) : Bool := isLowerL c || isDigitA c

/-- Python `\s` on ASCII: space, tab, newline, carriage return, form feed,
vertical tab. -/
def pyIsSpace (c : Char) : Bool :=
  c.toNat = 32 || c.toNat = 9 || c.toNat = 10 || c.toNat = 13 ||
  c.toNat = 12 || c.toNat = 11

/-- Python `str.upper` on one character (ASCII letters only, as used by the code on
validated organization names). -/
def pyUpper (c : Char) : Char :=
  match c with
  | 'a' => 'A' | 'b' => 'B' | 'c' => 'C' | 'd' => 'D' | 'e' => 'E'
  | 'f' => 'F' | 'g' => 'G' | 'h' => 'H' | 'i' => 'I' | 'j' => 'J'
  | 'k' => 'K' | 'l' => 'L' | 'm' => 'M' | 'n' => 'N' | 'o' => 'O'
  | 'p' => 'P' | 'q' => 'Q' | 'r' => 'R' | 's' => 'S' | 't' => 'T'
  | 'u' => 'U' | 'v' => 'V' | 'w' => 'W' | 'x' => 'X' | 'y' => 'Y'
  | 'z' => 'Z' | c => c

/-- Python `str.lower` on one character (ASCII). -/
def pyLower (c : Char) : Char :=
  match c with
  | 'A' => 'a' | 'B' => 'b' | 'C' => 'c' | 'D' => 'd' | 'E' => 'e'
  | 'F' => 'f' | 'G' => 'g' | 'H' => 'h' | 'I' => 'i' | 'J' => 'j'
  | 'K' => 'k' | 'L' => 'l' | 'M' => 'm' | 'N' => 'n' | 'O' => 'o'
  | 'P' => 'p' | 'Q' => 'q' | 'R' => 'r' | 'S' => 's' | 'T' => 't'
  | 'U' => 'u' | 'V' => 'v' | 'W' => 'w' | 'X' => 'x' | 'Y' => 'y'
  | 'Z' => 'z' | c => c

/-- Python `str.upper` on a text. -/
def upperText (t : Text) : Text := t.map pyUpper

/-- Is the character an ASCII letter (cased character for `str.title`)? -/
def isAlphaA (c : Char) : Bool :=
  (65 ≤ c.toNat && c.toNat ≤ 90) || (97 ≤ c.toNat && c.toNat ≤ 122)

/-- Worker for `str.title`: uppercase a letter that follows a non-letter,
lowercase a letter that follows a letter.  The boolean records whether the
previous character was a letter. -/
def pyTitleAux : Bool → Text → Text
  | _, [] => []
  | prevAlpha, c :: rest =>
    (if isAlphaA c then (if prevAlpha then pyLower c else pyUpper c) else c)
      :: pyTitleAux (isAlphaA c) rest

/-- Python `str.title` (ASCII). -/
def pyTitle (s : String) : String := String.mk (pyTitleAux false s.data)

/-- Python `str.upper` at the `String` level. -/
def pyUpperStr (s : String) : String := String.mk (upperText s.data)

/-! ## Decimal rendering (`f"{n:012d}"`) and reading (`int(...)`) -/

/-- Python `int(...)` applied to a string of decimal digits. -/
def natOfDigits (t : Text) : Nat := t.foldl (fun a c => 10 * a + (c.toNat - 48)) 0

/-- The decimal character of one digit value. -/
def decChar (d : Nat) : Char :=
  match d with
  | 0 => '0' | 1 => '1' | 2 => '2' | 3 => '3' | 4 => '4'
  | 5 => '5' | 6 => '6' | 7 => '7' | 8 => '8' | 9 => '9' | _ => '0'

/-- Fuel-indexed decimal rendering of `n` (most significant digit first,
empty for `0`; only used under the padding of `padZero`, which renders `0`
as a run of `'0'` exactly as `f"{0:012d}"` does). -/
def natToDecAux : Nat → Nat → Text
  | 0, _ => []
  | fuel + 1, n =>
    if n = 0 then [] else natToDecAux fuel (n / 10) ++ [decChar (n % 10)]

/-- Decimal digits of `n`. -/
def toDecimal (n : Nat) : Text := natToDecAux (n + 1) n

/-- The format `f"{n:0wd}"`: decimal rendering of `n`, left-padded with zeros to a
minimum width `w`. -/
def padZero (w : Nat) (n : Nat) : Text :=
  List.replicate (w - (toDecimal n).length) '0' ++ toDecimal n

/-! ## `validation.py` -/

/-- Tail of the `^[a-z][a-z0-9]*$` match after the first character:
`[a-z0-9]*` then `$`.  Python's `$` matches at the end of the string or just
before a newline at the end of the string, so a single trailing `'\n'` is
accepted. -/
def matchTailLower : Text → Bool
  | [] => true
  | [c] => c == '\n' || isLowerAlnum c
  | c :: rest => isLowerAlnum c && matchTailLower rest

/-- Function `validate_org_name` (validation.py, lines 9-18): empty string is rejected,
otherwise `bool(re.match(r'^[a-z][a-z0-9]*$', org_name))`. -/
def validate_org_name (s : Text) : Bool :=
  match s with
  | [] => false
  | c :: rest => isLowerL c && matchTailLower rest

/-- The regex tail of twelve digits then `$`: exactly `n` ASCII digits and then the end of the string
(or a single trailing newline, per Python's `$`). -/
def digitsThenEnd : Nat → Text → Bool
  | 0, [] => true
  | 0, [c] => c == '\n'
  | 0, _ :: _ :: _ => false
  | _ + 1, [] => false
  | n + 1, c :: rest => isDigitA c && digitsThenEnd n rest

/-- Function `validate_bpn` (validation.py, lines 21-27):
`bool(re.match(r'^BPNL\d{12}$', bpn))`. -/
def validate_bpn (s : Text) : Bool :=
  (lit "BPNL").isPrefixOf s && digitsThenEnd 12 (s.drop 4)

/-- The grammar named by the specification for organization names: a
non-empty string of lowercase letters and digits beginning with a letter. -/
def specOrgName (s : Text) : Bool :=
  match s with
  | [] => false
  | c :: rest => isLowerL c && rest.all isLowerAlnum

/-- The language named by the specification for partner identifiers: exactly
the prefix `BPNL` followed by exactly 12 decimal digits and nothing else. -/
def specBpn (s : Text) : Bool :=
  (lit "BPNL").isPrefixOf s && (s.drop 4).length = 12 && (s.drop 4).all isDigitA

/-- Function `generate_next_bpn` (validation.py, lines 95-109): collect
`int(bpn[4:])` for every entry starting with `BPNL`; empty collection gives
the fixed first identifier, otherwise `f"BPNL{max(numbers)+1:012d}"`. -/
def generate_next_bpn (existing_bpns : List Text) : Text :=
  let numbers :=
    (existing_bpns.filter (fun b => (lit "BPNL").isPrefixOf b)).map
      (fun b => natOfDigits (b.drop 4))
  if numbers.isEmpty then lit "BPNL000000000001"
  else lit "BPNL" ++ padZero 12 (numbers.foldl max 0 + 1)

/-- The glob `*.tf` used by `find_next_file_number`. -/
def globTf (name : Text) : Bool := (lit ".tf").isSuffixOf name

/-- The `.*\.tf$` tail of the numbered-file regex: everything up to a final
`.tf` matched by `.` (which excludes newlines), with `$` also accepting a
single trailing newline. -/
def tfTail (rest : Text) : Bool :=
  let core := if rest.getLast? = some '\n' then rest.dropLast else rest
  (lit ".tf").isSuffixOf core && (core.take (core.length - 3)).all (· ≠ '\n')

/-- The match `re.match` of the numbered-file pattern on `name`, returning the captured leading
number: a maximal non-empty run of leading digits, then `-`, then a
newline-free middle ending in `.tf`. -/
def leadingNumber (name : Text) : Option Nat :=
  let ds := name.takeWhile isDigitA
  match name.drop ds.length with
  | c :: rest =>
    if !ds.isEmpty && c == '-' && tfTail rest then some (natOfDigits ds) else none
  | [] => none

/-- Function `find_next_file_number` (validation.py, lines 53-75), over the list of
file names in the deployment directory: collect the leading numbers of the
`*.tf` files matching the numbered pattern; none collected gives 2, else
`max + 1`, except that a computed 4 is skipped to 5 when `4-seed_data.tf`
exists. -/
def find_next_file_number (files : List Text) : Nat :=
  let numbers := (files.filter globTf).filterMap leadingNumber
  if numbers.isEmpty then 2
  else
    let next := numbers.foldl max 0 + 1
    if next = 4 && files.contains (lit "4-seed_data.tf") then 5 else next

/-- The number extraction as the claim words it: a `*.tf` file whose name
starts with a leading number followed by a dash. -/
def specLeadNum (name : Text) : Option Nat :=
  let ds := name.takeWhile isDigitA
  match name.drop ds.length with
  | c :: rest =>
    if !ds.isEmpty && c == '-' && (lit ".tf").isSuffixOf rest then
      some (natOfDigits ds)
    else none
  | [] => none

/-! ## The regex substitution engine

Each `re.sub` call of the source is hand-compiled into a *finder* that
locates the leftmost match of its pattern and splits the text into
`(before, group1, group2, after)`, plus a *replacement* building the
substituted text from the two groups.  `gsub` then applies the finder
repeatedly over the remaining text, exactly as `re.sub` does for all
non-overlapping matches, scanning left to right. -/

/-- Match `\s*c` at the start of `t` (greedy whitespace, then the literal
closing character; since the closer is never a whitespace character, the
backtracking search succeeds exactly when the first non-whitespace character
is the closer).  Returns the consumed part and the rest. -/
def matchWsThen (cl : Char) (t : Text) : Option (Text × Text) :=
  match t.dropWhile pyIsSpace with
  | c :: post => if c = cl then some (t.takeWhile pyIsSpace ++ [c], post) else none
  | [] => none

/-- Match `[^cl]*?B\s*cl` at the start of `t` (a lazily grown run of
characters other than `cl`, then the literal `B`, then `\s*` and the closing
character) with the backtracking order of the regex engine: at each position
first try `B` followed by `\s*cl`, otherwise consume one more non-`cl`
character.  Returns `(run, closer, rest)` with `t = run ++ B ++ closer ++
rest`.  With `B = []` this is the `[^\]]*?\s*\]` tail of the jwt-gen
pattern; the greedy `[^\]]*` of the second `depends_on` pattern coincides
with this scan because its match position is unique (the anchor literal
contains no whitespace and no closer). -/
def scanLazyTo (B : Text) (cl : Char) : Text → Option (Text × Text × Text)
  | [] => none
  | c :: rest =>
    match (if B.isPrefixOf (c :: rest) then
             (matchWsThen cl ((c :: rest).drop B.length)).map
               (fun p => (([] : Text), p.1, p.2))
           else none) with
    | some r => some r
    | none =>
      if c = cl then none
      else (scanLazyTo B cl rest).map (fun r => (c :: r.1, r.2.1, r.2.2))

/-- Try an anchored matcher at every position, left to right, as the regex
engine searches for the leftmost match.  `tryM` returns `(group1, group2,
rest)` for a match anchored at the start of its argument. -/
def findAnchored (tryM : Text → Option (Text × Text × Text)) :
    Text → Option (Text × Text × Text × Text)
  | [] => (tryM []).map (fun r => (([] : Text), r.1, r.2.1, r.2.2))
  | c :: rest =>
    match tryM (c :: rest) with
    | some (g1, g2, post) => some ([], g1, g2, post)
    | none =>
      (findAnchored tryM rest).map (fun r => (c :: r.1, r.2.1, r.2.2.1, r.2.2.2))

/-- Does the literal `pat` occur (as a contiguous substring) in `t`? -/
def occursIn (pat : Text) : Text → Bool
  | [] => pat.isPrefixOf []
  | c :: rest => pat.isPrefixOf (c :: rest) || occursIn pat rest

/-- First occurrence of a literal: split `t` as `before ++ L ++ after`. -/
def splitFirst (L : Text) : Text → Option (Text × Text)
  | [] => if L.isPrefixOf ([] : Text) then some ([], []) else none
  | c :: rest =>
    if L.isPrefixOf (c :: rest) then some ([], (c :: rest).drop L.length)
    else (splitFirst L rest).map (fun p => (c :: p.1, p.2))

/-- Global substitution with fuel: replace every non-overlapping match, scanning left to
right.  The fuel `t.length + 1` of `gsub` always suffices because every
finder of this file consumes at least one character per match. -/
def gsubFuel (find : Text → Option (Text × Text × Text × Text))
    (repl : Text → Text → Text) : Nat → Text → Text
  | 0, t => t
  | fuel + 1, t =>
    match find t with
    | none => t
    | some (pre, g1, g2, post) => pre ++ repl g1 g2 ++ gsubFuel find repl fuel post

/-- Global substitution for the compiled finder of a pattern. -/
def gsub (find : Text → Option (Text × Text × Text × Text))
    (repl : Text → Text → Text) (t : Text) : Text :=
  gsubFuel find repl (t.length + 1) t

/-- An anchored matcher for a pattern that is one literal (whole match in
group 1, empty group 2). -/
def tryLit (L : Text) (t : Text) : Option (Text × Text × Text) :=
  if L.isPrefixOf t then some (L, [], t.drop L.length) else none

/-! ### The seven substitutions of `update_seed_data_tf`
(terraform_utils.py, lines 18-84) and the one of `update_jwt_gen_script`
(did_utils.py, lines 9-28).  Braces inside string literals are written with
their escapes. -/

/-- Head literal of `seed_collections = \{[^}]*?companyy = ...` -/
def anchorSeedCollections : Text := lit "seed_collections = \x7b"

/-- The sibling-entry literal of the first pattern. -/
def litCompanyyEntry : Text :=
  lit "companyy = kubernetes_namespace.companyy_namespace.metadata[0].name"

/-- Anchored matcher for
`(seed_collections = \{[^}]*?companyy = kubernetes_namespace\.companyy_namespace\.metadata\[0\]\.name)(\s*\})`
(DOTALL; the character class never matches `}` regardless of DOTALL). -/
def tryM1 (t : Text) : Option (Text × Text × Text) :=
  if anchorSeedCollections.isPrefixOf t then
    (scanLazyTo litCompanyyEntry '\x7d' (t.drop anchorSeedCollections.length)).map
      (fun r => (anchorSeedCollections ++ r.1 ++ litCompanyyEntry, r.2.1, r.2.2))
  else none

/-- The entry inserted into the `seed_collections` map. -/
def insSeedCollections (org : Text) : Text :=
  lit "\n    " ++ org ++ lit " = kubernetes_namespace." ++ org ++
    lit "_namespace.metadata[0].name"

/-- Replacement `\1\n    {org} = kubernetes_namespace.{org}_namespace.metadata[0].name\2`. -/
def repl1 (org g1 g2 : Text) : Text := g1 ++ insSeedCollections org ++ g2

/-- First substitution: add the organization to the `seed_collections` map. -/
def patchSeedCollections (org t : Text) : Text :=
  gsub (findAnchored tryM1) (repl1 org) t

/-- Head literal of `(companies = \{.*?)(\n  \})`. -/
def anchorCompanies : Text := lit "companies = \x7b"

/-- The closing-delimiter literal of the companies pattern. -/
def litCompaniesClose : Text := lit "\n  \x7d"

/-- Anchored matcher for `(companies = \{.*?)(\n  \})` (DOTALL): the lazy
`.*?` extends to the first occurrence of the closing literal. -/
def tryM2 (t : Text) : Option (Text × Text × Text) :=
  if anchorCompanies.isPrefixOf t then
    (splitFirst litCompaniesClose (t.drop anchorCompanies.length)).map
      (fun p => (anchorCompanies ++ p.1, litCompaniesClose, p.2))
  else none

/-- The `new_company_entry` block of the source, with the f-string brace
escapes resolved. -/
def newCompanyEntry (org : Text) : Text :=
  lit "\n    " ++ org ++ lit " = \x7b\n      namespace              = var." ++
  org ++ lit "_namespace\n      participant_did        = \"did:web:" ++ org ++
  lit ".$\x7blocal.domain_name\x7d\"\n      participant_did_base64 = base64encode(local." ++
  org ++ lit "_participant_did)\n      vc_membership_path     = \"assets/did/" ++
  org ++ lit ".membership.jwt\"\n      bpn                    = var." ++ org ++
  lit "_bpn\n      ih_superuser_apikey    = var." ++ org ++
  lit "_ih_superuser_apikey\n      module_dependency      = module." ++ org ++
  lit "_tx-identity-hub\n      ih_internal_url        = \"http://$\x7blocal." ++
  org ++ lit "_ih_internal_service\x7d:$\x7blocal." ++ org ++
  lit "_ih_internal_identity_port\x7d\"\n    \x7d"

/-- Replacement `\1{new_company_entry}\2`. -/
def repl2 (org g1 g2 : Text) : Text := g1 ++ newCompanyEntry org ++ g2

/-- Second substitution: add the full company record to the `companies` map. -/
def patchCompanies (org t : Text) : Text :=
  gsub (findAnchored tryM2) (repl2 org) t

/-- The literal `issuer_did` line matched by the third pattern. -/
def anchorIssuerDid : Text :=
  lit "  issuer_did               = \"did:web:issuer.$\x7blocal.domain_name\x7d\""

/-- The participant-DID local line inserted before the `issuer_did` line. -/
def insParticipantDid (org : Text) : Text :=
  lit "  " ++ org ++ lit "_participant_did = \"did:web:" ++ org ++
    lit ".$\x7blocal.domain_name\x7d\"\n"

/-- Replacement `  {org}_participant_did = "did:web:{org}.${local.domain_name}"\n\1`. -/
def repl3 (org g1 g2 : Text) : Text := insParticipantDid org ++ g1 ++ g2

/-- Third substitution: declare the participant DID local before `issuer_did`. -/
def patchParticipantDid (org t : Text) : Text :=
  gsub (findAnchored (tryLit anchorIssuerDid)) (repl3 org) t

/-- The literal `  seed_collections = \{` of the fourth pattern. -/
def anchorSeedCollectionsIndented : Text := lit "  seed_collections = \x7b"

/-- The two internal-service local lines inserted before the
`seed_collections` anchor. -/
def insInternalService (org : Text) : Text :=
  lit "  " ++ org ++
    lit "_ih_internal_service       = \"$\x7blower(var." ++ org ++
    lit "_humanReadableName)\x7d-tractusx-identityhub\"\n  " ++ org ++
    lit "_ih_internal_identity_port = 7081\n\n"

/-- Replacement inserting the two internal-service locals before the anchor. -/
def repl4 (org g1 g2 : Text) : Text := insInternalService org ++ g1 ++ g2

/-- Fourth substitution: add the internal-service locals. -/
def patchInternalService (org t : Text) : Text :=
  gsub (findAnchored (tryLit anchorSeedCollectionsIndented)) (repl4 org) t

/-- The literal `BDRS_API_AUTH_KEY` env-var line of the fifth pattern. -/
def anchorBdrsAuthKey : Text :=
  lit "            \"--env-var\", \"BDRS_API_AUTH_KEY=$\x7bvar.bdrs_api_auth_key\x7d\""

/-- The two env-var lines inserted before the auth-key line; the
organization name is upper-cased here. -/
def insBdrsEnvVars (org : Text) : Text :=
  lit "            \"--env-var\", \"" ++ upperText org ++
    lit "_DID=$\x7blocal.companies." ++ org ++
    lit ".participant_did\x7d\",\n            \"--env-var\", \"" ++
    upperText org ++ lit "_BPN=$\x7bvar." ++ org ++ lit "_bpn\x7d\",\n"

/-- Replacement inserting the organization's DID and BPN env-vars before the
auth-key line. -/
def repl5 (org g1 g2 : Text) : Text := insBdrsEnvVars org ++ g1 ++ g2

/-- Fifth substitution: extend the BDRS seeding job's env-var list. -/
def patchBdrsEnvVars (org t : Text) : Text :=
  gsub (findAnchored (tryLit anchorBdrsAuthKey)) (repl5 org) t

/-- The contiguous literal of `(depends_on = \[module\.bdrs-server)(\])`. -/
def anchorFirstDependsOn : Text := lit "depends_on = [module.bdrs-server]"

/-- Group-1 part of the first `depends_on` pattern. -/
def litFirstDependsOnOpen : Text := lit "depends_on = [module.bdrs-server"

/-- Anchored matcher for `(depends_on = \[module\.bdrs-server)(\])`. -/
def tryM6 (t : Text) : Option (Text × Text × Text) :=
  if anchorFirstDependsOn.isPrefixOf t then
    some (litFirstDependsOnOpen, lit "]", t.drop anchorFirstDependsOn.length)
  else none

/-- The two module references appended to a dependency list. -/
def insDependsOn (org : Text) : Text :=
  lit ",\n    module." ++ org ++ lit "_tx-identity-hub,\n    module." ++
    org ++ lit "_connector_ingress"

/-- Replacement `\1,\n    module.{org}_tx-identity-hub,\n    module.{org}_connector_ingress\2`. -/
def replDependsOn (org g1 g2 : Text) : Text := g1 ++ insDependsOn org ++ g2

/-- Sixth substitution: extend the first seed job's dependency list. -/
def patchFirstDependsOn (org t : Text) : Text :=
  gsub (findAnchored tryM6) (replDependsOn org) t

/-- Head literal of `(depends_on = \[[^\]]*module\.companyy_connector_ingress)(\s*\])`. -/
def anchorSecondDependsOn : Text := lit "depends_on = ["

/-- The sibling-module literal of the second `depends_on` pattern. -/
def litCompanyyIngress : Text := lit "module.companyy_connector_ingress"

/-- Anchored matcher for the second `depends_on` pattern (DOTALL). -/
def tryM7 (t : Text) : Option (Text × Text × Text) :=
  if anchorSecondDependsOn.isPrefixOf t then
    (scanLazyTo litCompanyyIngress ']' (t.drop anchorSecondDependsOn.length)).map
      (fun r => (anchorSecondDependsOn ++ r.1 ++ litCompanyyIngress, r.2.1, r.2.2))
  else none

/-- Seventh substitution: extend the second seed job's dependency list. -/
def patchSecondDependsOn (org t : Text) : Text :=
  gsub (findAnchored tryM7) (replDependsOn org) t

/-- Function `update_seed_data_tf` (terraform_utils.py, lines 18-84) as the pure text
transformation it applies between its read and its write; the `bpn`
parameter of the source function is never used by the substitutions. -/
def update_seed_data_tf (content org_name _bpn : Text) : Text :=
  patchSecondDependsOn org_name
    (patchFirstDependsOn org_name
      (patchBdrsEnvVars org_name
        (patchInternalService org_name
          (patchParticipantDid org_name
            (patchCompanies org_name
              (patchSeedCollections org_name content))))))

/-- Head literal of the jwt-gen pattern `(companies = \[[^\]]*?)(\s*\])`. -/
def anchorJwtCompanies : Text := lit "companies = ["

/-- Anchored matcher for `(companies = \[[^\]]*?)(\s*\])` (DOTALL). -/
def tryMJwt (t : Text) : Option (Text × Text × Text) :=
  if anchorJwtCompanies.isPrefixOf t then
    (scanLazyTo [] ']' (t.drop anchorJwtCompanies.length)).map
      (fun r => (anchorJwtCompanies ++ r.1, r.2.1, r.2.2))
  else none

/-- The jwt-gen `new_company_entry` literal (did_utils.py, lines 18-23). -/
def newJwtCompanyEntry (org bpn : Text) : Text :=
  lit ",\n        \x7b\n            \"filename\": \"" ++ org ++
    lit ".membership.jwt\",\n            \"holder_id\": f\"did:web:" ++ org ++
    lit ".\x7bdomain\x7d\",\n            \"holder_identifier\": \"" ++ bpn ++
    lit "\"\n        \x7d"

/-- Replacement `\1{new_company_entry}\2` of the jwt-gen patch. -/
def replJwt (org bpn g1 g2 : Text) : Text := g1 ++ newJwtCompanyEntry org bpn ++ g2

/-- Function `update_jwt_gen_script` (did_utils.py, lines 9-28) as the pure text
transformation it applies between its read and its write. -/
def update_jwt_gen_script (content org_name bpn : Text) : Text :=
  gsub (findAnchored tryMJwt) (replJwt org_name bpn) content

/-! ## JSON documents (`update_mvds_seed_json`, `create_postman_collection`)

JSON values as Python's `json` module holds them: objects are
insertion-ordered key/value lists (Python dicts), arrays are lists. -/

inductive Json where
  | null
  | bool (b : Bool)
  | num (n : Int)
  | str (s : String)
  | arr (elems : List Json)
  | obj (fields : List (String × Json))

/-- Key lookup in an insertion-ordered field list (keys are unique in a
Python dict, so the first binding is the binding). -/
def slookup : List (String × Json) → String → Option Json
  | [], _ => none
  | (k0, v) :: rest, k => if k0 = k then some v else slookup rest k

/-- Python `dict.get(k)` / `dict[k]`: the value bound to `k`; `none` for a missing
key or a non-object. -/
def dictGet (j : Json) (k : String) : Option Json :=
  match j with
  | .obj fields => slookup fields k
  | _ => none

/-- Python dict assignment `d[k] = v`: replace the binding in place if the
key exists, otherwise append the new binding at the end. -/
def dictSet (fields : List (String × Json)) (k : String) (v : Json) :
    List (String × Json) :=
  if (slookup fields k).isSome then
    fields.map (fun kv => if kv.1 = k then (kv.1, v) else kv)
  else fields ++ [(k, v)]

/-- Assignment `d[k] = v` on a JSON object value (other values are untouched; the
source never reaches that case on its guarded paths). -/
def jsonSet (j : Json) (k : String) (v : Json) : Json :=
  match j with
  | .obj fields => .obj (dictSet fields k v)
  | _ => j

/-- The test `item.get("name") == "SeedBDRS"`. -/
def isSeedBDRS (item : Json) : Bool :=
  match dictGet item "name" with
  | some (.str s) => s == "SeedBDRS"
  | _ => false

/-- The list `seed_data.get("item", [])`, read as the list it is on well-formed
documents. -/
def topItems (doc : Json) : List Json :=
  match dictGet doc "item" with
  | some (.arr l) => l
  | _ => []

/-- The `"item"` list of one section, `[]` when absent. -/
def childItems (sec : Json) : List Json :=
  match dictGet sec "item" with
  | some (.arr l) => l
  | _ => []

/-- Python `list.append(entry)` on a JSON array value. -/
def arrAppend (v : Json) (entry : Json) : Json :=
  match v with
  | .arr l => .arr (l ++ [entry])
  | v => v

/-- The in-place mutation of the found section: create the `"item"` list if
absent, then append the new entry to it. -/
def appendChild (sec : Json) (entry : Json) : Json :=
  match sec with
  | .obj fields =>
    if (slookup fields "item").isSome then
      .obj (fields.map (fun kv =>
        if kv.1 = "item" then (kv.1, arrAppend kv.2 entry) else kv))
    else .obj (fields ++ [("item", .arr [entry])])
  | sec => sec

/-- The `new_bpn_mapping` request body, the f-string of terraform_utils.py
line 173 with its doubled braces resolved (its final `\\n` is a literal
backslash-n in the source, reproduced here). -/
def rawBpnBody (orgU : String) : String :=
  "\x7b\n  \"bpn\": \"\x7b\x7b" ++ orgU ++ "_BPN\x7d\x7d\",\n  \"did\": \"\x7b\x7b" ++
    orgU ++ "_DID\x7d\x7d\"\\n\x7d"

/-- The `new_bpn_mapping` dictionary built by `update_mvds_seed_json`
(terraform_utils.py, lines 140-191). -/
def new_bpn_mapping (org : String) : Json :=
  .obj [
    ("name", .str ("Create " ++ pyTitle org ++ " BPN Mapping")),
    ("event", .arr [
      .obj [
        ("listen", .str "test"),
        ("script", .obj [
          ("exec", .arr [
            .str "pm.test(\"Status code is 204\", function () \x7b",
            .str "    pm.response.to.have.status(204);",
            .str "\x7d);"]),
          ("type", .str "text/javascript"),
          ("packages", .obj [])])],
      .obj [
        ("listen", .str "prerequest"),
        ("script", .obj [
          ("exec", .arr [.str ""]),
          ("type", .str "text/javascript"),
          ("packages", .obj [])])]]),
    ("request", .obj [
      ("method", .str "POST"),
      ("header", .arr []),
      ("body", .obj [
        ("mode", .str "raw"),
        ("raw", .str (rawBpnBody (pyUpperStr org))),
        ("options", .obj [("raw", .obj [("language", .str "json")])])]),
      ("url", .obj [
        ("raw", .str "\x7b\x7bBDRS_MGMT_URL\x7d\x7d/bpn-directory"),
        ("host", .arr [.str "\x7b\x7bBDRS_MGMT_URL\x7d\x7d"]),
        ("path", .arr [.str "bpn-directory"])])]),
    ("response", .arr [])]

/-- The `for ... break` search of `update_mvds_seed_json`: the index of the
first item named `SeedBDRS`. -/
def findSeedIdx : List Json → Option Nat
  | [] => none
  | it :: rest => if isSeedBDRS it then some 0 else (findSeedIdx rest).map (· + 1)

/-- The document transformation of `update_mvds_seed_json`
(terraform_utils.py, lines 123-202): find the first top-level item named
`SeedBDRS`; raise (`.error`) if there is none, otherwise append the new
mapping entry to that section's item list (creating it when absent) and
return the updated document.  The `bpn` parameter of the source function is
never used by the mutation.  On documents whose `"item"` members are not
objects the source would raise an attribute error; the model's total
`dictGet` returns `false` there, and every theorem below restricts itself to
well-formed documents (`wfSeedDoc`). -/
def update_mvds_seed_json (doc : Json) (org _bpn : String) : Except String Json :=
  let items := topItems doc
  match findSeedIdx items with
  | none => .error "SeedBDRS section not found in mvds-seed.json"
  | some i =>
    let sec := items.getD i .null
    .ok (jsonSet doc "item" (.arr (items.set i (appendChild sec (new_bpn_mapping org)))))

/-- One child item is well-formed: an object whose `"item"` binding, when
present, is an array. -/
def wfItem (it : Json) : Bool :=
  match it with
  | .obj gs =>
    match slookup gs "item" with
    | none => true
    | some (.arr _) => true
    | some _ => false
  | _ => false

/-- A well-formed seed document: a JSON object whose `"item"` binding, when
present, is an array of well-formed items. -/
def wfSeedDoc (doc : Json) : Bool :=
  match doc with
  | .obj fs =>
    match slookup fs "item" with
    | none => true
    | some (.arr l) => l.all wfItem
    | some _ => false
  | _ => false

/-! ### Serialization: `json.dump(data, f, indent=2)` -/

/-- JSON string escaping as `json.dump` performs it on the ASCII payloads of
these documents (quote, backslash and the common control characters). -/
def escChar (c : Char) : Text :=
  if c = '"' then ['\\', '"']
  else if c = '\\' then ['\\', '\\']
  else if c = '\n' then ['\\', 'n']
  else if c = '\t' then ['\\', 't']
  else if c = '\r' then ['\\', 'r']
  else [c]

/-- A quoted, escaped JSON string literal. -/
def dumpStr (s : String) : String :=
  "\"" ++ String.mk (s.data.flatMap escChar) ++ "\""

/-- A run of `n` spaces. -/
def spaces (n : Nat) : String := String.mk (List.replicate n ' ')

mutual

/-- Python `json.dump(j, f, indent=2)` at nesting level `lvl`. -/
def dumpJson (lvl : Nat) : Json → String
  | .null => "null"
  | .bool true => "true"
  | .bool false => "false"
  | .num n => toString n
  | .str s => dumpStr s
  | .arr [] => "[]"
  | .arr (x :: xs) =>
    "[\n" ++ dumpArr lvl (x :: xs) ++ "\n" ++ spaces (lvl * 2) ++ "]"
  | .obj [] => "\x7b\x7d"
  | .obj (f :: fs) =>
    "\x7b\n" ++ dumpObj lvl (f :: fs) ++ "\n" ++ spaces (lvl * 2) ++ "\x7d"

/-- The comma-and-newline separated, indented elements of an array. -/
def dumpArr (lvl : Nat) : List Json → String
  | [] => ""
  | [x] => spaces ((lvl + 1) * 2) ++ dumpJson (lvl + 1) x
  | x :: y :: xs =>
    spaces ((lvl + 1) * 2) ++ dumpJson (lvl + 1) x ++ ",\n" ++ dumpArr lvl (y :: xs)

/-- The comma-and-newline separated, indented `"key": value` members of an
object. -/
def dumpObj (lvl : Nat) : List (String × Json) → String
  | [] => ""
  | [kv] => spaces ((lvl + 1) * 2) ++ dumpStr kv.1 ++ ": " ++ dumpJson (lvl + 1) kv.2
  | kv :: kv2 :: fs =>
    spaces ((lvl + 1) * 2) ++ dumpStr kv.1 ++ ": " ++ dumpJson (lvl + 1) kv.2 ++
      ",\n" ++ dumpObj lvl (kv2 :: fs)

end

/-- The file-level effect of `update_mvds_seed_json` on the seed file's
content: the function reads and parses the file, and only writes it back —
re-serialized with 2-space indentation plus a trailing newline — after the
section was found; when it raises, the content on disk stays what it was. -/
def update_mvds_seed_json_file (orig : String) (doc : Json) (org bpn : String) :
    String :=
  match update_mvds_seed_json doc org bpn with
  | .error _ => orig
  | .ok newDoc => dumpJson 0 newDoc ++ "\n"

/-! ## The orchestrator's file steps (`add-organization.py`)

The working tree is a map from path to content (first binding wins, so a
write shadows the previous content).  Template rendering (jinja2) and JSON
parsing (`json.load`) are external collaborators and enter the model as
function parameters, universally quantified in the theorems.  Each method
returns the new tree and its boolean result; a raised-and-caught exception
is the `false` result, with the writes performed up to that point kept (the
source has no rollback). -/

abbrev FS := List (String × String)

/-- Read a file; `none` when the path does not exist (Python raises). -/
def fsRead (fs : FS) (p : String) : Option String := fs.lookup p

/-- Write (create or overwrite) a file. -/
def fsWrite (fs : FS) (p c : String) : FS := (p, c) :: fs

/-- The parsed command-line arguments. -/
structure Args where
  org_name : String
  bpn : Option String
  domain : String
  dry_run : Bool

/-- The parameters prepared once per run. -/
structure Params where
  org_name : String
  bpn : String
  domain : String
  file_number : Nat

def orgTemplatePath : String := "scripts/templates/organization.tf.j2"
def varsTemplatePath : String := "scripts/templates/variables.tf.patch.j2"
def variablesPath : String := "deployment/variables.tf"
def seedDataPath : String := "deployment/4-seed_data.tf"
def seedJsonPath : String := "deployment/assets/seed/mvds-seed.json"
def jwtGenPath : String := "deployment/assets/did/jwt-gen.py"
def postmanTemplatePath : String :=
  "data-sharing/api-collections/companyx.postman_collection.json"

/-- Path of the new numbered organization file. -/
def orgTfPath (params : Params) : String :=
  "deployment/" ++ toString params.file_number ++ "-" ++ params.org_name ++ ".tf"

/-- Path of the new API collection. -/
def newCollectionPath (params : Params) : String :=
  "data-sharing/api-collections/" ++ params.org_name ++ ".postman_collection.json"

/-- The variables.tf part of `create_terraform_files` (lines 123-135):
`backup_file` then `append_to_variables_tf` (which appends
`"\n" + content + "\n"`), both skipped under dry run. -/
def stepVariables (args : Args) (varsContent : String) (fs : FS) : FS × Bool :=
  if args.dry_run then (fs, true)
  else
    match fsRead fs variablesPath with
    | none => (fs, false)
    | some cur =>
      let fs := fsWrite fs (variablesPath ++ ".backup") cur
      (fsWrite fs variablesPath (cur ++ "\n" ++ varsContent ++ "\n"), true)

/-- The 4-seed_data.tf part of `create_terraform_files` (lines 137-144):
backup then `update_seed_data_tf`, skipped under dry run. -/
def stepSeedData (args : Args) (org bpn : String) (fs : FS) : FS × Bool :=
  if args.dry_run then (fs, true)
  else
    match fsRead fs seedDataPath with
    | none => (fs, false)
    | some cur =>
      let fs := fsWrite fs (seedDataPath ++ ".backup") cur
      (fsWrite fs seedDataPath
        (String.mk (update_seed_data_tf cur.data org.data bpn.data)), true)

/-- The mvds-seed.json part of `create_terraform_files` (lines 146-151):
backup then `update_mvds_seed_json`, skipped under dry run.  A parse failure
or a missing SeedBDRS section raises after the backup was written. -/
def stepMvds (args : Args) (org bpn : String) (parse : String → Option Json)
    (fs : FS) : FS × Bool :=
  if args.dry_run then (fs, true)
  else
    match fsRead fs seedJsonPath with
    | none => (fs, false)
    | some cur =>
      let fs := fsWrite fs (seedJsonPath ++ ".backup") cur
      match parse cur with
      | none => (fs, false)
      | some doc =>
        match update_mvds_seed_json doc org bpn with
        | .error _ => (fs, false)
        | .ok newDoc =>
          (fsWrite fs seedJsonPath (dumpJson 0 newDoc ++ "\n"), true)

/-- Method `OrganizationAutomator.create_terraform_files` (lines 105-157): render
the organization template (writing the numbered file unless dry run), render
the variables patch, then the three guarded patch steps in sequence; the
first failure aborts the method. -/
def create_terraform_files (render : String → Params → String)
    (parse : String → Option Json) (args : Args) (params : Params) (fs : FS) :
    FS × Bool :=
  match fsRead fs orgTemplatePath with
  | none => (fs, false)
  | some tpl =>
    let orgContent := render tpl params
    let fs := if args.dry_run then fs else fsWrite fs (orgTfPath params) orgContent
    match fsRead fs varsTemplatePath with
    | none => (fs, false)
    | some vt =>
      match stepVariables args (render vt params) fs with
      | (fs, false) => (fs, false)
      | (fs, true) =>
        match stepSeedData args params.org_name params.bpn fs with
        | (fs, false) => (fs, false)
        | (fs, true) => stepMvds args params.org_name params.bpn parse fs

/-- Method `OrganizationAutomator.update_did_generation` (lines 159-175): backup
jwt-gen.py and patch it with `update_jwt_gen_script`, all skipped under dry
run. -/
def update_did_generation (args : Args) (params : Params) (fs : FS) : FS × Bool :=
  if args.dry_run then (fs, true)
  else
    match fsRead fs jwtGenPath with
    | none => (fs, false)
    | some cur =>
      let fs := fsWrite fs (jwtGenPath ++ ".backup") cur
      (fsWrite fs jwtGenPath
        (String.mk (update_jwt_gen_script cur.data params.org_name.data
          params.bpn.data)), true)

/-- The loop over `collection_data.get("variable", [])` (lines 197-203):
rewrite the two placeholder variables; a non-object entry or an entry
without a `"key"` raises (`none`). -/
def updatePostmanVars (params : Params) : List Json → Option (List Json)
  | [] => some []
  | .obj gs :: rest =>
    match slookup gs "key" with
    | none => none
    | some (.str "COMPANY_X_CONNECTOR_URL") =>
      let gs := dictSet gs "key" (.str (pyUpperStr params.org_name ++ "_CONNECTOR_URL"))
      let gs := dictSet gs "value"
        (.str ("https://" ++ params.org_name ++ "." ++ params.domain))
      (updatePostmanVars params rest).map (Json.obj gs :: ·)
    | some (.str "COMPANY_X_BPN") =>
      let gs := dictSet gs "key" (.str (pyUpperStr params.org_name ++ "_BPN"))
      let gs := dictSet gs "value" (.str params.bpn)
      (updatePostmanVars params rest).map (Json.obj gs :: ·)
    | some _ => (updatePostmanVars params rest).map (Json.obj gs :: ·)
  | _ :: _ => none

/-- The pure rewriting of the template collection (lines 192-204): update
the two `"info"` fields and the placeholder variables; `none` models the
raised-and-caught exceptions (no `"info"` object, a non-list `"variable"`,
an ill-formed variable entry). -/
def postmanRewrite (params : Params) (collection : Json) : Option Json :=
  match dictGet collection "info" with
  | some (.obj infoFs) =>
    let infoFs := dictSet infoFs "name"
      (.str (pyTitle params.org_name ++ " Connector Management API"))
    let infoFs := dictSet infoFs "description"
      (.str ("API collection for " ++ params.org_name ++ " connector operations"))
    let collection := jsonSet collection "info" (.obj infoFs)
    let vars := match dictGet collection "variable" with
      | some (.arr l) => some l
      | none => some []
      | some _ => none
    match vars with
    | none => none
    | some l =>
      match updatePostmanVars params l with
      | none => none
      | some l2 =>
        some (if (match dictGet collection "variable" with
            | some (.arr _) => true | _ => false) then
            jsonSet collection "variable" (.arr l2)
          else collection)
  | _ => none

/-- Method `OrganizationAutomator.create_postman_collection` (lines 177-217): a
missing template is a warning and a successful return; a template that fails
to parse or to rewrite raises and returns failure; otherwise the rewritten
collection is written to the new path unless dry run.  (`json.dump` is
called here without a trailing newline.) -/
def create_postman_collection (parse : String → Option Json) (args : Args)
    (params : Params) (fs : FS) : FS × Bool :=
  match fsRead fs postmanTemplatePath with
  | none => (fs, true)
  | some content =>
    match parse content with
    | none => (fs, false)
    | some collection =>
      match postmanRewrite params collection with
      | none => (fs, false)
      | some out =>
        if args.dry_run then (fs, true)
        else (fsWrite fs (newCollectionPath params) (dumpJson 0 out), true)

/-- The file-mutating tail of `OrganizationAutomator.run` (lines 253-261):
the three methods in sequence, stopping at the first failure. -/
def runFileSteps (render : String → Params → String)
    (parse : String → Option Json) (args : Args) (params : Params) (fs : FS) :
    FS × Bool :=
  match create_terraform_files render parse args params fs with
  | (fs, false) => (fs, false)
  | (fs, true) =>
    match update_did_generation args params fs with
    | (fs, false) => (fs, false)
    | (fs, true) => create_postman_collection parse args params fs

/-! ## Lemmas about the validators -/

theorem isPrefixOf_eq_true_iff {l1 l2 : Text} : l1.isPrefixOf l2 = true ↔ l1 <+: l2 :=
  List.isPrefixOf_iff_prefix


theorem matchTailLower_iff (rest : Text) :
    matchTailLower rest = true ↔
      (rest.all isLowerAlnum = true ∨
        ∃ r, rest = r ++ ['\n'] ∧ r.all isLowerAlnum = true) := by
  induction rest with
  | nil =>
    constructor
    · intro _; exact Or.inl rfl
    · intro _; rfl
  | cons c rest ih =>
    cases rest with
    | nil =>
      by_cases hc : c = '\n'
      · subst hc
        constructor
        · intro _; exact Or.inr ⟨[], rfl, rfl⟩
        · intro _; rfl
      · constructor
        · intro h
          left
          simp only [matchTailLower, Bool.or_eq_true, beq_iff_eq] at h
          rcases h with h | h
          · exact absurd h hc
          · simp [List.all_cons, h]
        · intro h
          rcases h with h | ⟨r, hr, hall⟩
          · simp only [List.all_cons, List.all_nil, Bool.and_eq_true] at h
            simp [matchTailLower, h.1]
          · cases r with
            | nil => simp only [List.nil_append, List.cons.injEq] at hr; exact absurd hr.1 hc
            | cons x r' => simp [List.cons_append] at hr
    | cons d rest' =>
      constructor
      · intro h
        simp only [matchTailLower, Bool.and_eq_true] at h
        rcases ih.mp h.2 with hall | ⟨r', hr', hall'⟩
        · left; simp [List.all_cons, h.1, hall]
        · right
          exact ⟨c :: r', by simp [hr'], by simp [List.all_cons, h.1, hall']⟩
      · intro h
        show (isLowerAlnum c && matchTailLower (d :: rest')) = true
        rcases h with hall | ⟨r, hr, hallr⟩
        · simp only [List.all_cons, Bool.and_eq_true] at hall
          simp only [Bool.and_eq_true, hall.1, true_and]
          exact ih.mpr (Or.inl (by simp [List.all_cons, hall.2.1, hall.2.2]))
        · cases r with
          | nil => simp at hr
          | cons x r' =>
            simp only [List.cons_append, List.cons.injEq] at hr
            obtain ⟨hx, htail⟩ := hr
            subst hx
            simp only [List.all_cons, Bool.and_eq_true] at hallr
            simp only [Bool.and_eq_true, hallr.1, true_and]
            exact ih.mpr (Or.inr ⟨r', htail, hallr.2⟩)

/-- C7 counterexample: Python's `$` also matches just before a trailing
newline, so `validate_org_name` accepts the string `"a\n"`, which is not in
the grammar `^[a-z][a-z0-9]*$` read as "a non-empty string of lowercase
letters and digits beginning with a letter"; the claimed equivalence fails
on this input. -/
theorem validate_org_name_newline_counterexample :
    ¬ (validate_org_name (lit "a\n") = true ↔ specOrgName (lit "a\n") = true) := by
  decide

/-- C7 (amended): `validate_org_name s` is true exactly when `s` is a
non-empty string of lowercase letters and digits beginning with a letter,
or such a string followed by one trailing newline; in particular it accepts
the whole grammar and rejects every string containing an uppercase letter,
every string starting with a digit, and the empty string. -/
theorem validate_org_name_spec (s : Text) :
    validate_org_name s = true ↔
      (specOrgName s = true ∨ ∃ r, s = r ++ ['\n'] ∧ specOrgName r = true) := by
  cases s with
  | nil =>
    constructor
    · intro h; cases h
    · intro h
      rcases h with h | ⟨r, hr, _⟩
      · cases h
      · exact absurd hr (by simp)
  | cons c rest =>
    constructor
    · intro h
      simp only [validate_org_name, Bool.and_eq_true] at h
      rcases (matchTailLower_iff rest).mp h.2 with hall | ⟨r, hr, hall⟩
      · left; simp only [specOrgName, Bool.and_eq_true]; exact ⟨h.1, hall⟩
      · right
        refine ⟨c :: r, by simp [hr], ?_⟩
        simp only [specOrgName, Bool.and_eq_true]
        exact ⟨h.1, hall⟩
    · intro h
      show (isLowerL c && matchTailLower rest) = true
      rcases h with h | ⟨r, hr, hsp⟩
      · simp only [specOrgName, Bool.and_eq_true] at h
        simp only [Bool.and_eq_true, h.1, true_and]
        exact (matchTailLower_iff rest).mpr (Or.inl h.2)
      · cases r with
        | nil => cases hsp
        | cons x r' =>
          simp only [List.cons_append, List.cons.injEq] at hr
          obtain ⟨hx, htail⟩ := hr
          subst hx
          simp only [specOrgName, Bool.and_eq_true] at hsp
          simp only [Bool.and_eq_true, hsp.1, true_and]
          exact (matchTailLower_iff rest).mpr (Or.inr ⟨r', htail, hsp.2⟩)

theorem digitsThenEnd_iff : ∀ (n : Nat) (s : Text),
    digitsThenEnd n s = true ↔
      ((s.length = n ∧ s.all isDigitA = true) ∨
        ∃ r, s = r ++ ['\n'] ∧ r.length = n ∧ r.all isDigitA = true)
  | 0, s => by
    cases s with
    | nil =>
      constructor
      · intro _; exact Or.inl ⟨rfl, rfl⟩
      · intro _; rfl
    | cons c rest =>
      cases rest with
      | nil =>
        constructor
        · intro h
          simp only [digitsThenEnd, beq_iff_eq] at h
          subst h
          exact Or.inr ⟨[], rfl, rfl, rfl⟩
        · intro h
          rcases h with ⟨hl, _⟩ | ⟨r, hr, hl, _⟩
          · cases hl
          · cases r with
            | nil =>
              simp only [List.nil_append, List.cons.injEq] at hr
              simp [digitsThenEnd, hr.1]
            | cons x r' => simp [List.cons_append] at hr
      | cons d rest' =>
        constructor
        · intro h; cases h
        · intro h
          rcases h with ⟨hl, _⟩ | ⟨r, hr, hl, _⟩
          · cases hl
          · cases r with
            | nil => simp at hr
            | cons x r' => cases hl
  | n + 1, s => by
    cases s with
    | nil =>
      constructor
      · intro h; cases h
      · intro h
        rcases h with ⟨hl, _⟩ | ⟨r, hr, hl, _⟩
        · cases hl
        · exact absurd hr (by simp)
    | cons c rest =>
      constructor
      · intro h
        simp only [digitsThenEnd, Bool.and_eq_true] at h
        rcases (digitsThenEnd_iff n rest).mp h.2 with ⟨hl, hall⟩ | ⟨r, hr, hl, hall⟩
        · exact Or.inl ⟨by simp [hl], by simp [List.all_cons, h.1, hall]⟩
        · exact Or.inr ⟨c :: r, by simp [hr], by simp [hl],
            by simp [List.all_cons, h.1, hall]⟩
      · intro h
        show (isDigitA c && digitsThenEnd n rest) = true
        rcases h with ⟨hl, hall⟩ | ⟨r, hr, hl, hall⟩
        · simp only [List.all_cons, Bool.and_eq_true] at hall
          simp only [Bool.and_eq_true, hall.1, true_and]
          exact (digitsThenEnd_iff n rest).mpr
            (Or.inl ⟨by simpa using hl, hall.2⟩)
        · cases r with
          | nil => cases hl
          | cons x r' =>
            simp only [List.cons_append, List.cons.injEq] at hr
            obtain ⟨hx, htail⟩ := hr
            subst hx
            simp only [List.all_cons, Bool.and_eq_true] at hall
            simp only [Bool.and_eq_true, hall.1, true_and]
            exact (digitsThenEnd_iff n rest).mpr
              (Or.inr ⟨r', htail, by simpa using hl, hall.2⟩)

/-- C8 counterexample: `validate_bpn` accepts `"BPNL000000000001\n"` because
Python's `$` also matches just before a trailing newline, so the claimed
"and nothing else" equivalence fails on this input. -/
theorem validate_bpn_newline_counterexample :
    ¬ (validate_bpn (lit "BPNL000000000001\n") = true ↔
        specBpn (lit "BPNL000000000001\n") = true) := by
  decide

/-- C8 (amended): `validate_bpn s` is true exactly when `s` is the prefix
`BPNL` followed by exactly 12 decimal digits, or such a string followed by
one trailing newline; any other digit count or prefix is rejected. -/
theorem validate_bpn_spec (s : Text) :
    validate_bpn s = true ↔
      (specBpn s = true ∨ ∃ r, s = r ++ ['\n'] ∧ specBpn r = true) := by
  constructor
  · intro h
    simp only [validate_bpn, Bool.and_eq_true] at h
    rcases (digitsThenEnd_iff 12 (s.drop 4)).mp h.2 with ⟨hl, hall⟩ | ⟨r, hr, hl, hall⟩
    · left
      simp only [specBpn, Bool.and_eq_true]
      exact ⟨⟨h.1, by simp [hl]⟩, hall⟩
    · right
      have hpre := isPrefixOf_eq_true_iff.mp h.1
      have hs : lit "BPNL" ++ s.drop 4 = s := List.prefix_iff_eq_append.mp hpre
      refine ⟨lit "BPNL" ++ r, ?_, ?_⟩
      · rw [← hs, hr]; simp
      · simp only [specBpn, Bool.and_eq_true]
        have h4 : (lit "BPNL" ++ r).drop 4 = r := List.drop_left (lit "BPNL") r
        refine ⟨⟨isPrefixOf_eq_true_iff.mpr (List.prefix_append _ _), ?_⟩, ?_⟩
        · rw [h4]; simp [hl]
        · rw [h4]; exact hall
  · intro h
    simp only [validate_bpn, Bool.and_eq_true]
    rcases h with h | ⟨r, hr, h⟩
    · simp only [specBpn, Bool.and_eq_true] at h
      refine ⟨h.1.1, ?_⟩
      exact (digitsThenEnd_iff 12 (s.drop 4)).mpr (Or.inl ⟨by simpa using h.1.2, h.2⟩)
    · simp only [specBpn, Bool.and_eq_true] at h
      have hpre := isPrefixOf_eq_true_iff.mp h.1.1
      have hlen : 4 ≤ r.length := by
        have := hpre.length_le
        simpa using this
      subst hr
      constructor
      · exact isPrefixOf_eq_true_iff.mpr (hpre.trans (List.prefix_append _ _))
      · have hdrop : (r ++ ['\n']).drop 4 = r.drop 4 ++ ['\n'] :=
          List.drop_append_of_le_length hlen
        rw [hdrop]
        exact (digitsThenEnd_iff 12 _).mpr
          (Or.inr ⟨r.drop 4, rfl, by simpa using h.1.2, h.2⟩)

/-! ## Lemmas about the allocators -/

/-- C2: on a non-empty set of existing partner identifiers (each `BPNL`
followed by a non-empty run of decimal digits), `generate_next_bpn` returns
`BPNL` followed by `max(numeric suffixes) + 1` zero-padded to minimum width
12; the empty set gives `BPNL000000000001` and the singleton
`{BPNL000000000003}` gives `BPNL000000000004`. -/
theorem generate_next_bpn_spec :
    (∀ bpns : List Text, bpns ≠ [] →
      (∀ b ∈ bpns, (lit "BPNL").isPrefixOf b = true ∧
        (b.drop 4).all isDigitA = true ∧ b.drop 4 ≠ []) →
      generate_next_bpn bpns =
        lit "BPNL" ++
          padZero 12 ((bpns.map (fun b => natOfDigits (b.drop 4))).foldl max 0 + 1)) ∧
    generate_next_bpn [] = lit "BPNL000000000001" ∧
    generate_next_bpn [lit "BPNL000000000003"] = lit "BPNL000000000004" := by
  refine ⟨?_, rfl, by decide⟩
  intro bpns hne h
  have hfilter : bpns.filter (fun b => (lit "BPNL").isPrefixOf b) = bpns :=
    List.filter_eq_self.mpr (fun b hb => (h b hb).1)
  unfold generate_next_bpn
  rw [hfilter]
  have hmapne : bpns.map (fun b => natOfDigits (b.drop 4)) ≠ [] := by
    simpa using hne
  rw [if_neg (by simpa [List.isEmpty_iff] using hmapne)]

theorem foldl_max_le {l : List Nat} {bound : Nat} (h : ∀ x ∈ l, x ≤ bound) :
    ∀ {acc : Nat}, acc ≤ bound → l.foldl max acc ≤ bound := by
  induction l with
  | nil => intro acc hacc; exact hacc
  | cons x xs ih =>
    intro acc hacc
    exact ih (fun y hy => h y (List.mem_cons_of_mem x hy))
      (max_le hacc (h x (List.mem_cons_self x xs)))

theorem natToDecAux_length : ∀ (fuel n k : Nat), n < 10 ^ k →
    (natToDecAux fuel n).length ≤ k := by
  intro fuel
  induction fuel with
  | zero => intro n k _; simp [natToDecAux]
  | succ fuel ih =>
    intro n k hn
    by_cases h0 : n = 0
    · simp [natToDecAux, h0]
    · have hk : k ≠ 0 := by
        rintro rfl
        simp at hn
        omega
      obtain ⟨k', rfl⟩ := Nat.exists_eq_succ_of_ne_zero hk
      have hdiv : n / 10 < 10 ^ k' := by
        rw [Nat.div_lt_iff_lt_mul (by norm_num)]
        calc n < 10 ^ (k' + 1) := hn
        _ = 10 ^ k' * 10 := by ring
      have := ih (n / 10) k' hdiv
      simp only [natToDecAux, h0, if_false, List.length_append, List.length_cons,
        List.length_nil]
      omega

theorem decChar_isDigit (d : Nat) : isDigitA (decChar d) = true := by
  unfold decChar
  split <;> decide

theorem natToDecAux_digits : ∀ (fuel n : Nat), ∀ c ∈ natToDecAux fuel n,
    isDigitA c = true := by
  intro fuel
  induction fuel with
  | zero => intro n c hc; simp [natToDecAux] at hc
  | succ fuel ih =>
    intro n c hc
    by_cases h0 : n = 0
    · simp [natToDecAux, h0] at hc
    · simp only [natToDecAux, h0, if_false, List.mem_append, List.mem_singleton] at hc
      rcases hc with hc | hc
      · exact ih _ c hc
      · subst hc; exact decChar_isDigit _

theorem padZero_length {w n : Nat} (h : n < 10 ^ w) : (padZero w n).length = w := by
  have := natToDecAux_length (n + 1) n w h
  simp only [padZero, toDecimal, List.length_append, List.length_replicate]
  omega

theorem padZero_digits (w n : Nat) : ∀ c ∈ padZero w n, isDigitA c = true := by
  intro c hc
  simp only [padZero, toDecimal, List.mem_append, List.mem_replicate] at hc
  rcases hc with ⟨_, hc⟩ | hc
  · subst hc; decide
  · exact natToDecAux_digits _ _ c hc

theorem digitsThenEnd_of_digits : ∀ (n : Nat) (s : Text), s.length = n →
    (∀ c ∈ s, isDigitA c = true) → digitsThenEnd n s = true := by
  intro n s hl hall
  exact (digitsThenEnd_iff n s).mpr (Or.inl ⟨hl, List.all_eq_true.mpr hall⟩)

/-- C10: whenever every existing identifier is `BPNL` followed by exactly 12
digits whose numeric value is at most 999999999998, the identifier produced
by `generate_next_bpn` is itself accepted by `validate_bpn`. -/
theorem generate_next_bpn_validates (bpns : List Text)
    (h : ∀ b ∈ bpns, specBpn b = true ∧ natOfDigits (b.drop 4) ≤ 999999999998) :
    validate_bpn (generate_next_bpn bpns) = true := by
  unfold generate_next_bpn
  by_cases he :
      ((bpns.filter (fun b => (lit "BPNL").isPrefixOf b)).map
        (fun b => natOfDigits (b.drop 4))).isEmpty
  · rw [if_pos he]; decide
  · rw [if_neg he]
    set M := ((bpns.filter (fun b => (lit "BPNL").isPrefixOf b)).map
      (fun b => natOfDigits (b.drop 4))).foldl max 0 with hM
    have hMle : M ≤ 999999999998 := by
      refine foldl_max_le ?_ (Nat.zero_le _)
      intro x hx
      simp only [List.mem_map, List.mem_filter] at hx
      obtain ⟨b, ⟨hb, _⟩, rfl⟩ := hx
      exact (h b hb).2
    have hlt : M + 1 < 10 ^ 12 := by norm_num; omega
    simp only [validate_bpn, Bool.and_eq_true]
    constructor
    · exact isPrefixOf_eq_true_iff.mpr (List.prefix_append _ _)
    · have hdrop : (lit "BPNL" ++ padZero 12 (M + 1)).drop 4 = padZero 12 (M + 1) :=
        List.drop_left (lit "BPNL") _
      rw [hdrop]
      exact digitsThenEnd_of_digits 12 _ (padZero_length hlt) (padZero_digits _ _)

/-- C10 witness: a concrete identifier set satisfying the hypotheses, on
which the allocator's output re-enters the validator's language. -/
theorem generate_next_bpn_validates_witness :
    (∀ b ∈ [lit "BPNL000000000003"], specBpn b = true ∧
      natOfDigits (b.drop 4) ≤ 999999999998) ∧
    validate_bpn (generate_next_bpn [lit "BPNL000000000003"]) = true :=
  ⟨by decide, generate_next_bpn_validates [lit "BPNL000000000003"] (by decide)⟩

/-- C2 witness: the general allocator formula applied to the concrete
singleton identifier set. -/
theorem generate_next_bpn_spec_witness :
    ([lit "BPNL000000000003"] ≠ ([] : List Text)) ∧
    (∀ b ∈ [lit "BPNL000000000003"], (lit "BPNL").isPrefixOf b = true ∧
      (b.drop 4).all isDigitA = true ∧ b.drop 4 ≠ []) ∧
    generate_next_bpn [lit "BPNL000000000003"] =
      lit "BPNL" ++
        padZero 12
          ((([lit "BPNL000000000003"] : List Text).map
            (fun b => natOfDigits (b.drop 4))).foldl max 0 + 1) :=
  ⟨by decide, by decide,
    generate_next_bpn_spec.1 [lit "BPNL000000000003"] (by decide) (by decide)⟩

/-! ## Lemmas about the file-number allocator -/

theorem drop_takeWhile_length (p : Char → Bool) (l : Text) :
    l.drop (l.takeWhile p).length = l.dropWhile p := by
  have h := List.takeWhile_append_dropWhile p l
  calc l.drop (l.takeWhile p).length
      = (l.takeWhile p ++ l.dropWhile p).drop (l.takeWhile p).length := by rw [h]
  _ = l.dropWhile p := List.drop_left _ _

theorem tfTail_of_clean {rest : Text} (h : ('\n' : Char) ∉ rest) :
    tfTail rest = (lit ".tf").isSuffixOf rest := by
  have hlast : rest.getLast? ≠ some '\n' :=
    fun hl => h (List.mem_of_mem_getLast? hl)
  have hall : (rest.take (rest.length - 3)).all (fun c => c ≠ '\n') = true := by
    refine List.all_eq_true.mpr (fun c hc => ?_)
    exact decide_eq_true (fun he => h (he ▸ List.mem_of_mem_take hc))
  simp only [tfTail, if_neg hlast, hall, Bool.and_true]

theorem leadingNumber_clean {name : Text} (h : ('\n' : Char) ∉ name) :
    (if globTf name then leadingNumber name else none) = specLeadNum name := by
  have hsplit : name.takeWhile isDigitA ++ name.drop (name.takeWhile isDigitA).length
      = name := by
    rw [drop_takeWhile_length]; exact List.takeWhile_append_dropWhile _ _
  rcases hrest : name.drop (name.takeWhile isDigitA).length with _ | ⟨c, rest⟩
  · simp only [leadingNumber, specLeadNum, hrest]
    split <;> rfl
  · have hclean : ('\n' : Char) ∉ rest := by
      intro hmem
      exact h (by rw [← hsplit, hrest]; simp [hmem])
    simp only [leadingNumber, specLeadNum, hrest, tfTail_of_clean hclean]
    by_cases hcond :
        (!(name.takeWhile isDigitA).isEmpty && c == '-' &&
          (lit ".tf").isSuffixOf rest) = true
    · have hsuf : (lit ".tf").isSuffixOf rest = true := by
        simp only [Bool.and_eq_true] at hcond
        exact hcond.2
      have hglob : globTf name = true := by
        have h1 : lit ".tf" <:+ rest := List.isSuffixOf_iff_suffix.mp hsuf
        have h2 : rest <:+ name := by
          rw [← hsplit, hrest]
          have : rest <:+ c :: rest := List.suffix_cons c rest
          exact this.trans (List.suffix_append _ _)
        exact List.isSuffixOf_iff_suffix.mpr (h1.trans h2)
      simp [hglob, hcond]
    · rw [if_neg hcond]
      split
      · rfl
      · rfl

theorem collectNumbers_clean (files : List Text)
    (h : ∀ n ∈ files, ('\n' : Char) ∉ n) :
    (files.filter globTf).filterMap leadingNumber = files.filterMap specLeadNum := by
  rw [List.filterMap_filter]
  exact List.filterMap_congr (fun n hn => leadingNumber_clean (h n hn))

/-- C1: over a deployment directory whose file names contain no newline, the
file-number allocator returns 2 when no `*.tf` file has a leading number
followed by a dash; otherwise `max(collected numbers) + 1`, except that a
computed 4 is skipped to 5 when `4-seed_data.tf` exists; with the three
concrete directory scenarios of the claim. -/
theorem find_next_file_number_spec :
    (∀ files : List Text, (∀ n ∈ files, ('\n' : Char) ∉ n) →
      find_next_file_number files =
        (if files.filterMap specLeadNum = [] then 2
         else if (files.filterMap specLeadNum).foldl max 0 + 1 = 4 ∧
             lit "4-seed_data.tf" ∈ files then 5
         else (files.filterMap specLeadNum).foldl max 0 + 1)) ∧
    find_next_file_number [] = 2 ∧
    find_next_file_number [lit "2-companyx.tf", lit "3-companyy.tf",
      lit "4-seed_data.tf", lit "variables.tf"] = 5 ∧
    find_next_file_number [lit "2-a.tf", lit "3-b.tf", lit "6-c.tf"] = 7 := by
  refine ⟨?_, rfl, by decide, by decide⟩
  intro files h
  unfold find_next_file_number
  rw [collectNumbers_clean files h]
  by_cases h1 : files.filterMap specLeadNum = []
  · rw [if_pos h1, if_pos (by simp [h1])]
  · rw [if_neg (by simpa [List.isEmpty_iff] using h1), if_neg h1]
    by_cases h2 : (files.filterMap specLeadNum).foldl max 0 + 1 = 4 ∧
        lit "4-seed_data.tf" ∈ files
    · rw [if_pos h2, if_pos (by simp [h2.1, List.elem_iff, h2.2])]
    · rw [if_neg h2, if_neg ?_]
      intro hcon
      simp only [Bool.and_eq_true, decide_eq_true_eq, List.elem_iff] at hcon
      exact h2 hcon

/-- C1 witness: the general allocator characterization applied to a concrete
newline-free directory listing. -/
theorem find_next_file_number_spec_witness :
    (∀ n ∈ [lit "2-a.tf", lit "3-b.tf"], ('\n' : Char) ∉ n) ∧
    find_next_file_number [lit "2-a.tf", lit "3-b.tf"] =
      (if ([lit "2-a.tf", lit "3-b.tf"] : List Text).filterMap specLeadNum = []
       then 2
       else if (([lit "2-a.tf", lit "3-b.tf"] : List Text).filterMap
             specLeadNum).foldl max 0 + 1 = 4 ∧
           lit "4-seed_data.tf" ∈ ([lit "2-a.tf", lit "3-b.tf"] : List Text) then 5
       else (([lit "2-a.tf", lit "3-b.tf"] : List Text).filterMap
           specLeadNum).foldl max 0 + 1) :=
  ⟨by decide, find_next_file_number_spec.1 [lit "2-a.tf", lit "3-b.tf"] (by decide)⟩

/-! ## Lemmas about the substitution engine -/

theorem gsub_none {find : Text → Option (Text × Text × Text × Text)}
    {repl : Text → Text → Text} {t : Text} (h : find t = none) :
    gsub find repl t = t := by
  show gsubFuel find repl (t.length + 1) t = t
  simp [gsubFuel, h]

theorem findAnchored_none {tryM : Text → Option (Text × Text × Text)} {pat : Text}
    (hp : ∀ s r, tryM s = some r → pat.isPrefixOf s = true) :
    ∀ {t : Text}, occursIn pat t = false → findAnchored tryM t = none := by
  intro t
  induction t with
  | nil =>
    intro h
    rcases htry : tryM [] with _ | r
    · simp [findAnchored, htry]
    · have hpre := hp [] r htry
      rw [occursIn, hpre] at h
      cases h
  | cons c rest ih =>
    intro h
    rw [occursIn, Bool.or_eq_false_iff] at h
    rcases htry : tryM (c :: rest) with _ | r
    · simp only [findAnchored, htry]
      rw [ih h.2]
      rfl
    · exact absurd (hp _ r htry) (by simp [h.1])

theorem tryM1_anchor (s : Text) (r : Text × Text × Text) (h : tryM1 s = some r) :
    anchorSeedCollections.isPrefixOf s = true := by
  by_cases hp : anchorSeedCollections.isPrefixOf s
  · exact hp
  · simp [tryM1, hp] at h

theorem tryM2_anchor (s : Text) (r : Text × Text × Text) (h : tryM2 s = some r) :
    anchorCompanies.isPrefixOf s = true := by
  by_cases hp : anchorCompanies.isPrefixOf s
  · exact hp
  · simp [tryM2, hp] at h

theorem tryLit_anchor (L s : Text) (r : Text × Text × Text)
    (h : tryLit L s = some r) : L.isPrefixOf s = true := by
  by_cases hp : L.isPrefixOf s
  · exact hp
  · simp [tryLit, hp] at h

theorem tryM6_anchor (s : Text) (r : Text × Text × Text) (h : tryM6 s = some r) :
    anchorFirstDependsOn.isPrefixOf s = true := by
  by_cases hp : anchorFirstDependsOn.isPrefixOf s
  · exact hp
  · simp [tryM6, hp] at h

theorem tryM7_anchor (s : Text) (r : Text × Text × Text) (h : tryM7 s = some r) :
    anchorSecondDependsOn.isPrefixOf s = true := by
  by_cases hp : anchorSecondDependsOn.isPrefixOf s
  · exact hp
  · simp [tryM7, hp] at h

theorem tryMJwt_anchor (s : Text) (r : Text × Text × Text)
    (h : tryMJwt s = some r) : anchorJwtCompanies.isPrefixOf s = true := by
  by_cases hp : anchorJwtCompanies.isPrefixOf s
  · exact hp
  · simp [tryMJwt, hp] at h

/-- C3: for every input text in which a patch's anchor literal does not
occur, that patch is a silent no-op — the text is returned unchanged and,
the transformations being total functions, no error is raised; this holds
for each of the seven substitutions of `update_seed_data_tf` and for the
companies-array substitution of `update_jwt_gen_script`. -/
theorem patch_anchors_silent_noop (t org bpn : Text) :
    (occursIn anchorSeedCollections t = false → patchSeedCollections org t = t) ∧
    (occursIn anchorCompanies t = false → patchCompanies org t = t) ∧
    (occursIn anchorIssuerDid t = false → patchParticipantDid org t = t) ∧
    (occursIn anchorSeedCollectionsIndented t = false →
      patchInternalService org t = t) ∧
    (occursIn anchorBdrsAuthKey t = false → patchBdrsEnvVars org t = t) ∧
    (occursIn anchorFirstDependsOn t = false → patchFirstDependsOn org t = t) ∧
    (occursIn anchorSecondDependsOn t = false → patchSecondDependsOn org t = t) ∧
    (occursIn anchorJwtCompanies t = false → update_jwt_gen_script t org bpn = t) :=
  ⟨fun h => gsub_none (findAnchored_none tryM1_anchor h),
   fun h => gsub_none (findAnchored_none tryM2_anchor h),
   fun h => gsub_none (findAnchored_none (tryLit_anchor anchorIssuerDid) h),
   fun h => gsub_none (findAnchored_none (tryLit_anchor anchorSeedCollectionsIndented) h),
   fun h => gsub_none (findAnchored_none (tryLit_anchor anchorBdrsAuthKey) h),
   fun h => gsub_none (findAnchored_none tryM6_anchor h),
   fun h => gsub_none (findAnchored_none tryM7_anchor h),
   fun h => gsub_none (findAnchored_none tryMJwt_anchor h)⟩

/-- C3 witness: a concrete text containing none of the anchors, left
unchanged by all eight patches. -/
theorem patch_anchors_silent_noop_witness :
    patchSeedCollections (lit "acme") (lit "hello") = lit "hello" ∧
    patchCompanies (lit "acme") (lit "hello") = lit "hello" ∧
    patchParticipantDid (lit "acme") (lit "hello") = lit "hello" ∧
    patchInternalService (lit "acme") (lit "hello") = lit "hello" ∧
    patchBdrsEnvVars (lit "acme") (lit "hello") = lit "hello" ∧
    patchFirstDependsOn (lit "acme") (lit "hello") = lit "hello" ∧
    patchSecondDependsOn (lit "acme") (lit "hello") = lit "hello" ∧
    update_jwt_gen_script (lit "hello") (lit "acme") (lit "b") = lit "hello" :=
  ⟨(patch_anchors_silent_noop (lit "hello") (lit "acme") (lit "b")).1 (by decide),
   (patch_anchors_silent_noop (lit "hello") (lit "acme") (lit "b")).2.1 (by decide),
   (patch_anchors_silent_noop (lit "hello") (lit "acme") (lit "b")).2.2.1 (by decide),
   (patch_anchors_silent_noop (lit "hello") (lit "acme") (lit "b")).2.2.2.1 (by decide),
   (patch_anchors_silent_noop (lit "hello") (lit "acme") (lit "b")).2.2.2.2.1 (by decide),
   (patch_anchors_silent_noop (lit "hello") (lit "acme") (lit "b")).2.2.2.2.2.1 (by decide),
   (patch_anchors_silent_noop (lit "hello") (lit "acme") (lit "b")).2.2.2.2.2.2.1 (by decide),
   (patch_anchors_silent_noop (lit "hello") (lit "acme") (lit "b")).2.2.2.2.2.2.2 (by decide)⟩

/-! ### Soundness of the finders: a match splits the text -/

theorem isPrefixOf_append_drop {L t : Text} (h : L.isPrefixOf t = true) :
    t = L ++ t.drop L.length :=
  (List.prefix_iff_eq_append.mp (isPrefixOf_eq_true_iff.mp h)).symm

theorem matchWsThen_sound {cl : Char} {t g2 post : Text}
    (h : matchWsThen cl t = some (g2, post)) : t = g2 ++ post := by
  unfold matchWsThen at h
  split at h
  · next c rest hd =>
    split at h
    · simp only [Option.some.injEq, Prod.mk.injEq] at h
      obtain ⟨h1, h2⟩ := h
      rw [← h1, ← h2]
      calc t = t.takeWhile pyIsSpace ++ t.dropWhile pyIsSpace :=
            (List.takeWhile_append_dropWhile _ _).symm
      _ = t.takeWhile pyIsSpace ++ ([c] ++ rest) := by rw [hd]; rfl
      _ = t.takeWhile pyIsSpace ++ [c] ++ rest := by rw [List.append_assoc]
    · cases h
  · cases h

theorem scanLazyTo_sound {B : Text} {cl : Char} : ∀ {t mid g2 post : Text},
    scanLazyTo B cl t = some (mid, g2, post) → t = mid ++ B ++ g2 ++ post := by
  intro t
  induction t with
  | nil => intro mid g2 post h; simp [scanLazyTo] at h
  | cons c rest ih =>
    intro mid g2 post h
    unfold scanLazyTo at h
    rcases hin : (if B.isPrefixOf (c :: rest) then
        (matchWsThen cl ((c :: rest).drop B.length)).map
          (fun p => (([] : Text), p.1, p.2))
      else none) with _ | r
    · rw [hin] at h
      by_cases hc : c = cl
      · rw [if_pos hc] at h; cases h
      · rw [if_neg hc] at h
        rcases hrec : scanLazyTo B cl rest with _ | r'
        · rw [hrec] at h; cases h
        · rw [hrec] at h
          obtain ⟨m', g2', p'⟩ := r'
          simp only [Option.map_some', Option.some.injEq, Prod.mk.injEq] at h
          obtain ⟨h1, h2, h3⟩ := h
          subst h1; subst h2; subst h3
          have hr := ih hrec
          simp [hr]
    · rw [hin] at h
      by_cases hp : B.isPrefixOf (c :: rest)
      · rw [if_pos hp] at hin
        rcases hmw : matchWsThen cl ((c :: rest).drop B.length) with _ | p
        · rw [hmw] at hin; cases hin
        · rw [hmw] at hin
          simp only [Option.map_some', Option.some.injEq] at hin
          subst hin
          simp only [Option.some.injEq, Prod.mk.injEq] at h
          obtain ⟨h1, h2, h3⟩ := h
          subst h1; subst h2; subst h3
          have hsp := @matchWsThen_sound cl ((c :: rest).drop B.length) p.1 p.2
            (by rw [hmw])
          have hpre := isPrefixOf_append_drop hp
          rw [hpre, hsp]
          simp
      · rw [if_neg hp] at hin; cases hin

theorem splitFirst_sound {L : Text} : ∀ {t pre post : Text},
    splitFirst L t = some (pre, post) → t = pre ++ L ++ post := by
  intro t
  induction t with
  | nil =>
    intro pre post h
    unfold splitFirst at h
    by_cases hp : L.isPrefixOf ([] : Text)
    · rw [if_pos hp] at h
      simp only [Option.some.injEq, Prod.mk.injEq] at h
      obtain ⟨h1, h2⟩ := h
      subst h1; subst h2
      have : L <+: ([] : Text) := isPrefixOf_eq_true_iff.mp hp
      simp [List.prefix_nil.mp this]
    · rw [if_neg hp] at h; cases h
  | cons c rest ih =>
    intro pre post h
    unfold splitFirst at h
    by_cases hp : L.isPrefixOf (c :: rest)
    · rw [if_pos hp] at h
      simp only [Option.some.injEq, Prod.mk.injEq] at h
      obtain ⟨h1, h2⟩ := h
      subst h1; subst h2
      simpa using isPrefixOf_append_drop hp
    · rw [if_neg hp] at h
      rcases hrec : splitFirst L rest with _ | r'
      · rw [hrec] at h; cases h
      · rw [hrec] at h
        obtain ⟨pre', post'⟩ := r'
        simp only [Option.map_some', Option.some.injEq, Prod.mk.injEq] at h
        obtain ⟨h1, h2⟩ := h
        subst h1; subst h2
        simp [ih hrec]

theorem findAnchored_sound {tryM : Text → Option (Text × Text × Text)}
    (hsound : ∀ s g1 g2 post, tryM s = some (g1, g2, post) → s = g1 ++ g2 ++ post) :
    ∀ {t pre g1 g2 post : Text},
      findAnchored tryM t = some (pre, g1, g2, post) → t = pre ++ g1 ++ g2 ++ post := by
  intro t
  induction t with
  | nil =>
    intro pre g1 g2 post h
    unfold findAnchored at h
    rcases htry : tryM [] with _ | r
    · rw [htry] at h; cases h
    · rw [htry] at h
      obtain ⟨a, b, cpost⟩ := r
      simp only [Option.map_some', Option.some.injEq, Prod.mk.injEq] at h
      obtain ⟨h1, h2, h3, h4⟩ := h
      subst h1; subst h2; subst h3; subst h4
      simpa using hsound [] a b cpost htry
  | cons c rest ih =>
    intro pre g1 g2 post h
    unfold findAnchored at h
    rcases htry : tryM (c :: rest) with _ | r
    · rw [htry] at h
      rcases hrec : findAnchored tryM rest with _ | r'
      · rw [hrec] at h; cases h
      · rw [hrec] at h
        obtain ⟨p', a', b', q'⟩ := r'
        simp only [Option.map_some', Option.some.injEq, Prod.mk.injEq] at h
        obtain ⟨h1, h2, h3, h4⟩ := h
        subst h1; subst h2; subst h3; subst h4
        simp [ih hrec]
    · rw [htry] at h
      obtain ⟨a, b, q⟩ := r
      simp only [Option.some.injEq, Prod.mk.injEq] at h
      obtain ⟨h1, h2, h3, h4⟩ := h
      subst h1; subst h2; subst h3; subst h4
      simpa using hsound (c :: rest) a b q htry

theorem tryM1_sound (s g1 g2 post : Text) (h : tryM1 s = some (g1, g2, post)) :
    s = g1 ++ g2 ++ post := by
  unfold tryM1 at h
  by_cases hp : anchorSeedCollections.isPrefixOf s
  · rw [if_pos hp] at h
    rcases hscan : scanLazyTo litCompanyyEntry '\x7d'
        (s.drop anchorSeedCollections.length) with _ | r
    · rw [hscan] at h; cases h
    · rw [hscan] at h
      obtain ⟨m, g2', p'⟩ := r
      simp only [Option.map_some', Option.some.injEq, Prod.mk.injEq] at h
      obtain ⟨h1, h2, h3⟩ := h
      subst h1; subst h2; subst h3
      have hs := scanLazyTo_sound hscan
      have hpre := isPrefixOf_append_drop hp
      rw [hpre, hs]
      simp
  · rw [if_neg hp] at h; cases h

theorem tryM2_sound (s g1 g2 post : Text) (h : tryM2 s = some (g1, g2, post)) :
    s = g1 ++ g2 ++ post := by
  unfold tryM2 at h
  by_cases hp : anchorCompanies.isPrefixOf s
  · rw [if_pos hp] at h
    rcases hsp : splitFirst litCompaniesClose (s.drop anchorCompanies.length)
        with _ | r
    · rw [hsp] at h; cases h
    · rw [hsp] at h
      obtain ⟨m, p'⟩ := r
      simp only [Option.map_some', Option.some.injEq, Prod.mk.injEq] at h
      obtain ⟨h1, h2, h3⟩ := h
      subst h1; subst h2; subst h3
      have hs := splitFirst_sound hsp
      have hpre := isPrefixOf_append_drop hp
      rw [hpre, hs]
      simp
  · rw [if_neg hp] at h; cases h

theorem tryLit_sound (L : Text) (s g1 g2 post : Text)
    (h : tryLit L s = some (g1, g2, post)) : s = g1 ++ g2 ++ post := by
  unfold tryLit at h
  by_cases hp : L.isPrefixOf s
  · rw [if_pos hp] at h
    simp only [Option.some.injEq, Prod.mk.injEq] at h
    obtain ⟨h1, h2, h3⟩ := h
    subst h1; subst h2; subst h3
    simpa using isPrefixOf_append_drop hp
  · rw [if_neg hp] at h; cases h

theorem tryM6_sound (s g1 g2 post : Text) (h : tryM6 s = some (g1, g2, post)) :
    s = g1 ++ g2 ++ post := by
  unfold tryM6 at h
  by_cases hp : anchorFirstDependsOn.isPrefixOf s
  · rw [if_pos hp] at h
    simp only [Option.some.injEq, Prod.mk.injEq] at h
    obtain ⟨h1, h2, h3⟩ := h
    subst h1; subst h2; subst h3
    have hpre := isPrefixOf_append_drop hp
    rw [hpre]
    rfl
  · rw [if_neg hp] at h; cases h

theorem tryM7_sound (s g1 g2 post : Text) (h : tryM7 s = some (g1, g2, post)) :
    s = g1 ++ g2 ++ post := by
  unfold tryM7 at h
  by_cases hp : anchorSecondDependsOn.isPrefixOf s
  · rw [if_pos hp] at h
    rcases hscan : scanLazyTo litCompanyyIngress ']'
        (s.drop anchorSecondDependsOn.length) with _ | r
    · rw [hscan] at h; cases h
    · rw [hscan] at h
      obtain ⟨m, g2', p'⟩ := r
      simp only [Option.map_some', Option.some.injEq, Prod.mk.injEq] at h
      obtain ⟨h1, h2, h3⟩ := h
      subst h1; subst h2; subst h3
      have hs := scanLazyTo_sound hscan
      have hpre := isPrefixOf_append_drop hp
      rw [hpre, hs]
      simp
  · rw [if_neg hp] at h; cases h

theorem tryMJwt_sound (s g1 g2 post : Text) (h : tryMJwt s = some (g1, g2, post)) :
    s = g1 ++ g2 ++ post := by
  unfold tryMJwt at h
  by_cases hp : anchorJwtCompanies.isPrefixOf s
  · rw [if_pos hp] at h
    rcases hscan : scanLazyTo [] ']' (s.drop anchorJwtCompanies.length) with _ | r
    · rw [hscan] at h; cases h
    · rw [hscan] at h
      obtain ⟨m, g2', p'⟩ := r
      simp only [Option.map_some', Option.some.injEq, Prod.mk.injEq] at h
      obtain ⟨h1, h2, h3⟩ := h
      subst h1; subst h2; subst h3
      have hs := scanLazyTo_sound hscan
      have hpre := isPrefixOf_append_drop hp
      rw [hpre, hs]
      simp
  · rw [if_neg hp] at h; cases h

/-! ### Brace counting -/

theorem gsubFuel_count {find : Text → Option (Text × Text × Text × Text)}
    {repl : Text → Text → Text} (a b : Char)
    (hfind : ∀ t pre g1 g2 post, find t = some (pre, g1, g2, post) →
      t = pre ++ g1 ++ g2 ++ post)
    (hrepl : ∀ g1 g2, (repl g1 g2).count a + g1.count b + g2.count b
      = (repl g1 g2).count b + g1.count a + g2.count a) :
    ∀ fuel t, (gsubFuel find repl fuel t).count a + t.count b
      = (gsubFuel find repl fuel t).count b + t.count a := by
  intro fuel
  induction fuel with
  | zero => intro t; simp [gsubFuel]; omega
  | succ fuel ih =>
    intro t
    rcases hx : find t with _ | r
    · simp only [gsubFuel, hx]; omega
    · obtain ⟨pre, g1, g2, post⟩ := r
      have ht := hfind t pre g1 g2 post hx
      simp only [gsubFuel, hx]
      rw [ht]
      simp only [List.count_append]
      have hr := hrepl g1 g2
      have hi := ih post
      omega

theorem gsub_balance {find : Text → Option (Text × Text × Text × Text)}
    {repl : Text → Text → Text} {a b : Char}
    (hfind : ∀ t pre g1 g2 post, find t = some (pre, g1, g2, post) →
      t = pre ++ g1 ++ g2 ++ post)
    (hrepl : ∀ g1 g2, (repl g1 g2).count a + g1.count b + g2.count b
      = (repl g1 g2).count b + g1.count a + g2.count a)
    {t : Text} (h : t.count a = t.count b) :
    (gsub find repl t).count a = (gsub find repl t).count b := by
  have := gsubFuel_count a b hfind hrepl (t.length + 1) t
  show (gsubFuel find repl (t.length + 1) t).count a
    = (gsubFuel find repl (t.length + 1) t).count b
  omega

theorem repl_between_count {ins : Text} {a b : Char} (hins : ins.count a = ins.count b) :
    ∀ g1 g2 : Text, (g1 ++ ins ++ g2).count a + g1.count b + g2.count b
      = (g1 ++ ins ++ g2).count b + g1.count a + g2.count a := by
  intro g1 g2
  simp only [List.count_append]
  omega

theorem repl_before_count {ins : Text} {a b : Char} (hins : ins.count a = ins.count b) :
    ∀ g1 g2 : Text, (ins ++ g1 ++ g2).count a + g1.count b + g2.count b
      = (ins ++ g1 ++ g2).count b + g1.count a + g2.count a := by
  intro g1 g2
  simp only [List.count_append]
  omega

theorem validate_org_chars {org : Text} (h : validate_org_name org = true) :
    ∀ c ∈ org, isLowerAlnum c = true ∨ c = '\n' := by
  cases org with
  | nil => intro c hc; cases hc
  | cons c0 rest =>
    simp only [validate_org_name, Bool.and_eq_true] at h
    intro c hc
    rcases List.mem_cons.mp hc with rfl | hc
    · left
      unfold isLowerAlnum
      rw [h.1]
      rfl
    · rcases (matchTailLower_iff rest).mp h.2 with hall | ⟨r, hr, hall⟩
      · left; exact List.all_eq_true.mp hall c hc
      · subst hr
        rcases List.mem_append.mp hc with hc | hc
        · left; exact List.all_eq_true.mp hall c hc
        · right; simpa using hc

theorem org_count_eq_zero {org : Text} (h : validate_org_name org = true)
    {d : Char} (hd1 : isLowerAlnum d = false) (hd2 : d ≠ '\n') :
    org.count d = 0 := by
  rw [List.count_eq_zero]
  intro hmem
  rcases validate_org_chars h d hmem with hc | hc
  · rw [hd1] at hc; cases hc
  · exact hd2 hc

theorem pyUpper_fix_open (c : Char) (h : pyUpper c = '\x7b') : c = '\x7b' := by
  unfold pyUpper at h
  split at h <;> first | exact h | exact absurd h (by decide)

theorem pyUpper_fix_close (c : Char) (h : pyUpper c = '\x7d') : c = '\x7d' := by
  unfold pyUpper at h
  split at h <;> first | exact h | exact absurd h (by decide)

theorem upper_count_eq_zero {org : Text} {d : Char}
    (hfix : ∀ c : Char, pyUpper c = d → c = d) (h0 : org.count d = 0) :
    (upperText org).count d = 0 := by
  rw [List.count_eq_zero]
  intro hmem
  obtain ⟨c, hc, hcd⟩ := List.mem_map.mp hmem
  have := hfix c hcd
  subst this
  exact absurd hc (List.count_eq_zero.mp h0)

/-- C4: for a validated organization name, every text whose `{` count equals
its `}` count keeps that property under each of the seven substitutions of
`update_seed_data_tf` and under the whole transformation: every inserted
sub-block is brace-balanced, so whole-file brace balance is an invariant of
each patch. -/
theorem update_seed_data_tf_brace_balance (t org bpn : Text)
    (horg : validate_org_name org = true)
    (hbal : t.count '\x7b' = t.count '\x7d') :
    (patchSeedCollections org t).count '\x7b' =
      (patchSeedCollections org t).count '\x7d' ∧
    (patchCompanies org t).count '\x7b' = (patchCompanies org t).count '\x7d' ∧
    (patchParticipantDid org t).count '\x7b' =
      (patchParticipantDid org t).count '\x7d' ∧
    (patchInternalService org t).count '\x7b' =
      (patchInternalService org t).count '\x7d' ∧
    (patchBdrsEnvVars org t).count '\x7b' = (patchBdrsEnvVars org t).count '\x7d' ∧
    (patchFirstDependsOn org t).count '\x7b' =
      (patchFirstDependsOn org t).count '\x7d' ∧
    (patchSecondDependsOn org t).count '\x7b' =
      (patchSecondDependsOn org t).count '\x7d' ∧
    (update_seed_data_tf t org bpn).count '\x7b' =
      (update_seed_data_tf t org bpn).count '\x7d' := by
  have ho : org.count '\x7b' = 0 := org_count_eq_zero horg (by decide) (by decide)
  have hc : org.count '\x7d' = 0 := org_count_eq_zero horg (by decide) (by decide)
  have huo : (upperText org).count '\x7b' = 0 :=
    upper_count_eq_zero pyUpper_fix_open ho
  have huc : (upperText org).count '\x7d' = 0 :=
    upper_count_eq_zero pyUpper_fix_close hc
  have hins1 : (insSeedCollections org).count '\x7b'
      = (insSeedCollections org).count '\x7d' := by
    simp only [insSeedCollections, List.count_append, ho, hc]; decide
  have hins2 : (newCompanyEntry org).count '\x7b'
      = (newCompanyEntry org).count '\x7d' := by
    simp only [newCompanyEntry, List.count_append, ho, hc]; decide
  have hins3 : (insParticipantDid org).count '\x7b'
      = (insParticipantDid org).count '\x7d' := by
    simp only [insParticipantDid, List.count_append, ho, hc]; decide
  have hins4 : (insInternalService org).count '\x7b'
      = (insInternalService org).count '\x7d' := by
    simp only [insInternalService, List.count_append, ho, hc]; decide
  have hins5 : (insBdrsEnvVars org).count '\x7b'
      = (insBdrsEnvVars org).count '\x7d' := by
    simp only [insBdrsEnvVars, List.count_append, ho, hc, huo, huc]; decide
  have hins6 : (insDependsOn org).count '\x7b'
      = (insDependsOn org).count '\x7d' := by
    simp only [insDependsOn, List.count_append, ho, hc]; decide
  have s1 : ∀ u : Text, u.count '\x7b' = u.count '\x7d' →
      (patchSeedCollections org u).count '\x7b'
        = (patchSeedCollections org u).count '\x7d' :=
    fun _ hu => gsub_balance
      (fun t pre g1 g2 post h => findAnchored_sound tryM1_sound h)
      (fun g1 g2 => repl_between_count hins1 g1 g2) hu
  have s2 : ∀ u : Text, u.count '\x7b' = u.count '\x7d' →
      (patchCompanies org u).count '\x7b' = (patchCompanies org u).count '\x7d' :=
    fun _ hu => gsub_balance
      (fun t pre g1 g2 post h => findAnchored_sound tryM2_sound h)
      (fun g1 g2 => repl_between_count hins2 g1 g2) hu
  have s3 : ∀ u : Text, u.count '\x7b' = u.count '\x7d' →
      (patchParticipantDid org u).count '\x7b'
        = (patchParticipantDid org u).count '\x7d' :=
    fun _ hu => gsub_balance
      (fun t pre g1 g2 post h =>
        findAnchored_sound (tryLit_sound anchorIssuerDid) h)
      (fun g1 g2 => repl_before_count hins3 g1 g2) hu
  have s4 : ∀ u : Text, u.count '\x7b' = u.count '\x7d' →
      (patchInternalService org u).count '\x7b'
        = (patchInternalService org u).count '\x7d' :=
    fun _ hu => gsub_balance
      (fun t pre g1 g2 post h =>
        findAnchored_sound (tryLit_sound anchorSeedCollectionsIndented) h)
      (fun g1 g2 => repl_before_count hins4 g1 g2) hu
  have s5 : ∀ u : Text, u.count '\x7b' = u.count '\x7d' →
      (patchBdrsEnvVars org u).count '\x7b'
        = (patchBdrsEnvVars org u).count '\x7d' :=
    fun _ hu => gsub_balance
      (fun t pre g1 g2 post h =>
        findAnchored_sound (tryLit_sound anchorBdrsAuthKey) h)
      (fun g1 g2 => repl_before_count hins5 g1 g2) hu
  have s6 : ∀ u : Text, u.count '\x7b' = u.count '\x7d' →
      (patchFirstDependsOn org u).count '\x7b'
        = (patchFirstDependsOn org u).count '\x7d' :=
    fun _ hu => gsub_balance
      (fun t pre g1 g2 post h => findAnchored_sound tryM6_sound h)
      (fun g1 g2 => repl_between_count hins6 g1 g2) hu
  have s7 : ∀ u : Text, u.count '\x7b' = u.count '\x7d' →
      (patchSecondDependsOn org u).count '\x7b'
        = (patchSecondDependsOn org u).count '\x7d' :=
    fun _ hu => gsub_balance
      (fun t pre g1 g2 post h => findAnchored_sound tryM7_sound h)
      (fun g1 g2 => repl_between_count hins6 g1 g2) hu
  refine ⟨s1 t hbal, s2 t hbal, s3 t hbal, s4 t hbal, s5 t hbal, s6 t hbal,
    s7 t hbal, ?_⟩
  exact s7 _ (s6 _ (s5 _ (s4 _ (s3 _ (s2 _ (s1 _ hbal))))))

/-- C4 witness: the balance invariant applied to a concrete balanced text
and a concrete validated organization name. -/
theorem update_seed_data_tf_brace_balance_witness :
    validate_org_name (lit "acme") = true ∧
    (lit "hello").count '\x7b' = (lit "hello").count '\x7d' ∧
    (update_seed_data_tf (lit "hello") (lit "acme") (lit "b")).count '\x7b' =
      (update_seed_data_tf (lit "hello") (lit "acme") (lit "b")).count '\x7d' :=
  ⟨by decide, by decide,
    (update_seed_data_tf_brace_balance (lit "hello") (lit "acme") (lit "b")
      (by decide) (by decide)).2.2.2.2.2.2.2⟩

/-! ## Lemmas about the JSON collection editor -/

theorem getD_mem {α : Type} (l : List α) (n : Nat) (d : α) (h : n < l.length) :
    l.getD n d ∈ l := by
  rw [List.getD_eq_getElem?_getD, List.getElem?_eq_getElem h]
  exact List.getElem_mem h

theorem getD_set_ne {α : Type} {l : List α} {i j : Nat} (a d : α) (h : i ≠ j) :
    (l.set i a).getD j d = l.getD j d := by
  rw [List.getD_eq_getElem?_getD, List.getD_eq_getElem?_getD, List.getElem?_set_ne h]

theorem getD_set_self {α : Type} {l : List α} {i : Nat} (a d : α)
    (h : i < l.length) : (l.set i a).getD i d = a := by
  rw [List.getD_eq_getElem?_getD, List.getElem?_set_self h]
  rfl

theorem findSeedIdx_none_iff (l : List Json) :
    findSeedIdx l = none ↔ ∀ it ∈ l, isSeedBDRS it = false := by
  induction l with
  | nil => simp [findSeedIdx]
  | cons it rest ih =>
    by_cases hp : isSeedBDRS it
    · simp [findSeedIdx, hp]
    · rw [findSeedIdx, if_neg hp]
      constructor
      · intro h x hx
        rcases List.mem_cons.mp hx with rfl | hx
        · simpa using hp
        · refine ih.mp ?_ x hx
          rcases hfr : findSeedIdx rest with _ | j
          · rfl
          · rw [hfr] at h; cases h
      · intro h
        rw [ih.mpr (fun x hx => h x (List.mem_cons_of_mem _ hx))]
        rfl

theorem findSeedIdx_some : ∀ {l : List Json} {i : Nat},
    findSeedIdx l = some i → i < l.length ∧ isSeedBDRS (l.getD i .null) = true := by
  intro l
  induction l with
  | nil => intro i h; cases h
  | cons it rest ih =>
    intro i h
    by_cases hp : isSeedBDRS it
    · rw [findSeedIdx, if_pos hp] at h
      simp only [Option.some.injEq] at h
      subst h
      exact ⟨by simp, hp⟩
    · rw [findSeedIdx, if_neg hp] at h
      rcases hfr : findSeedIdx rest with _ | j
      · rw [hfr] at h; cases h
      · rw [hfr] at h
        simp only [Option.map_some', Option.some.injEq] at h
        subst h
        obtain ⟨hlt, hpred⟩ := ih hfr
        exact ⟨by simpa using Nat.succ_lt_succ hlt, by simpa using hpred⟩

theorem slookup_map_replace (k : String) (f : Json → Json) :
    ∀ gs : List (String × Json),
      slookup (gs.map (fun kv => if kv.1 = k then (kv.1, f kv.2) else kv)) k
        = (slookup gs k).map f := by
  intro gs
  induction gs with
  | nil => rfl
  | cons kv rest ih =>
    obtain ⟨k0, v⟩ := kv
    have hhead : (fun kv : String × Json =>
        if kv.1 = k then (kv.1, f kv.2) else kv) (k0, v)
        = if k0 = k then (k0, f v) else (k0, v) := by
      by_cases hk : k0 = k <;> simp [hk]
    by_cases hk : k0 = k
    · subst hk
      simp only [List.map_cons, hhead, if_pos rfl]
      simp [slookup, ih]
    · simp only [List.map_cons, hhead, if_neg hk]
      simp [slookup, hk, ih]

theorem slookup_map_replace_ne (k k' : String) (hne : k' ≠ k) (f : Json → Json) :
    ∀ gs : List (String × Json),
      slookup (gs.map (fun kv => if kv.1 = k then (kv.1, f kv.2) else kv)) k'
        = slookup gs k' := by
  intro gs
  induction gs with
  | nil => rfl
  | cons kv rest ih =>
    obtain ⟨k0, v⟩ := kv
    have hhead : (fun kv : String × Json =>
        if kv.1 = k then (kv.1, f kv.2) else kv) (k0, v)
        = if k0 = k then (k0, f v) else (k0, v) := by
      by_cases hk : k0 = k <;> simp [hk]
    by_cases hk : k0 = k
    · subst hk
      have hk0 : k0 ≠ k' := fun h => hne h.symm
      simp only [List.map_cons, hhead, if_pos rfl]
      simp [slookup, hk0, ih]
    · simp only [List.map_cons, hhead, if_neg hk]
      by_cases hk' : k0 = k'
      · subst hk'
        simp [slookup, ih]
      · simp [slookup, hk', ih]

theorem slookup_append_none (k : String) {gs hs : List (String × Json)}
    (h : slookup gs k = none) : slookup (gs ++ hs) k = slookup hs k := by
  induction gs with
  | nil => rfl
  | cons kv rest ih =>
    obtain ⟨k0, v⟩ := kv
    by_cases hk : k0 = k
    · rw [slookup, if_pos hk] at h
      cases h
    · rw [slookup, if_neg hk] at h
      rw [List.cons_append, slookup, if_neg hk]
      exact ih h

theorem slookup_append_singleton_ne (k k' : String) (hne : k' ≠ k) (v : Json) :
    ∀ gs : List (String × Json), slookup (gs ++ [(k, v)]) k' = slookup gs k' := by
  intro gs
  induction gs with
  | nil =>
    have hk : k ≠ k' := fun h => hne h.symm
    simp [slookup, hk]
  | cons kv rest ih =>
    obtain ⟨k0, w⟩ := kv
    by_cases hk : k0 = k'
    · simp [slookup, hk]
    · simp [slookup, hk, ih]

theorem dictSet_slookup_self {fs : List (String × Json)} {k : String} {v : Json}
    (h : (slookup fs k).isSome = true) : slookup (dictSet fs k v) k = some v := by
  unfold dictSet
  rw [if_pos h]
  have heq := slookup_map_replace k (fun _ => v) fs
  obtain ⟨w, hw⟩ := Option.isSome_iff_exists.mp h
  rw [hw] at heq
  simpa using heq

theorem dictSet_slookup_ne {fs : List (String × Json)} {k k' : String} {v : Json}
    (hne : k' ≠ k) : slookup (dictSet fs k v) k' = slookup fs k' := by
  unfold dictSet
  split
  · exact slookup_map_replace_ne k k' hne (fun _ => v) fs
  · exact slookup_append_singleton_ne k k' hne v fs

theorem appendChild_childItems {sec entry : Json} (hwf : wfItem sec = true) :
    childItems (appendChild sec entry) = childItems sec ++ [entry] := by
  rcases sec with _ | b | n | s | elems | gs
  case obj =>
    by_cases hit : (slookup gs "item").isSome
    · obtain ⟨v, hv⟩ := Option.isSome_iff_exists.mp hit
      rcases v with _ | b | n | s | cl | hs
      · exact absurd hwf (by simp [wfItem, hv])
      · exact absurd hwf (by simp [wfItem, hv])
      · exact absurd hwf (by simp [wfItem, hv])
      · exact absurd hwf (by simp [wfItem, hv])
      · simp only [appendChild, if_pos hit, childItems, dictGet]
        rw [slookup_map_replace "item" (fun w => arrAppend w entry) gs, hv]
        rfl
      · exact absurd hwf (by simp [wfItem, hv])
    · have hnone : slookup gs "item" = none := Option.not_isSome_iff_eq_none.mp hit
      simp only [appendChild, if_neg hit, childItems, dictGet]
      rw [slookup_append_none "item" hnone, hnone]
      rfl
  all_goals (exact absurd hwf (by simp [wfItem]))

theorem appendChild_dictGet_ne {sec entry : Json} {k : String} (hk : k ≠ "item") :
    dictGet (appendChild sec entry) k = dictGet sec k := by
  rcases sec with _ | b | n | s | elems | gs
  case obj =>
    simp only [appendChild]
    split
    · simp only [dictGet]
      exact slookup_map_replace_ne "item" k hk (fun w => arrAppend w entry) gs
    · simp only [dictGet]
      exact slookup_append_singleton_ne "item" k hk _ gs
  all_goals rfl

theorem wfSeedDoc_struct {doc : Json} (hwf : wfSeedDoc doc = true)
    (hne : topItems doc ≠ []) :
    ∃ fs l, doc = .obj fs ∧ slookup fs "item" = some (.arr l) ∧
      topItems doc = l ∧ ∀ it ∈ l, wfItem it = true := by
  rcases doc with _ | b | n | s | elems | fs
  case obj =>
    rcases hlk : slookup fs "item" with _ | v
    · exact absurd (by simp [topItems, dictGet, hlk]) hne
    · rcases v with _ | b | n | s | l | hs
      case arr =>
        refine ⟨fs, l, rfl, hlk, by simp [topItems, dictGet, hlk], ?_⟩
        have : l.all wfItem = true := by simpa [wfSeedDoc, hlk] using hwf
        exact List.all_eq_true.mp this
      all_goals (exact absurd hwf (by simp [wfSeedDoc, hlk]))
  all_goals (exact absurd hwf (by simp [wfSeedDoc]))

/-- C5: on a well-formed seed document, `update_mvds_seed_json` raises
exactly when no top-level item is named `SeedBDRS`, and in that case the
seed file's content on disk is left unchanged (the write happens only after
the section was found). -/
theorem update_mvds_seed_json_error_iff (doc : Json) (org bpn : String)
    (orig : String) (_hwf : wfSeedDoc doc = true) :
    ((∃ e, update_mvds_seed_json doc org bpn = .error e) ↔
      ∀ it ∈ topItems doc, isSeedBDRS it = false) ∧
    ((∃ e, update_mvds_seed_json doc org bpn = .error e) →
      update_mvds_seed_json_file orig doc org bpn = orig) := by
  constructor
  · constructor
    · rintro ⟨e, he⟩
      rcases hfi : findSeedIdx (topItems doc) with _ | i
      · exact (findSeedIdx_none_iff _).mp hfi
      · rw [update_mvds_seed_json, hfi] at he
        cases he
    · intro h
      refine ⟨"SeedBDRS section not found in mvds-seed.json", ?_⟩
      rw [update_mvds_seed_json, (findSeedIdx_none_iff _).mpr h]
  · rintro ⟨e, he⟩
    rw [update_mvds_seed_json_file, he]

/-- C5 witness: a concrete well-formed document without a `SeedBDRS` item;
the update raises and the file content stays what it was. -/
theorem update_mvds_seed_json_error_iff_witness :
    wfSeedDoc (Json.obj [("item", Json.arr [Json.obj [("name", Json.str "X")]])])
      = true ∧
    (∃ e, update_mvds_seed_json
        (Json.obj [("item", Json.arr [Json.obj [("name", Json.str "X")]])])
        "acme" "b" = .error e) ∧
    update_mvds_seed_json_file "orig"
      (Json.obj [("item", Json.arr [Json.obj [("name", Json.str "X")]])])
      "acme" "b" = "orig" := by
  refine ⟨rfl, ⟨"SeedBDRS section not found in mvds-seed.json", rfl⟩, ?_⟩
  exact (update_mvds_seed_json_error_iff
      (Json.obj [("item", Json.arr [Json.obj [("name", Json.str "X")]])])
      "acme" "b" "orig" rfl).2
    ⟨"SeedBDRS section not found in mvds-seed.json", rfl⟩

/-- C6: on a well-formed seed document containing a `SeedBDRS` item,
`update_mvds_seed_json` succeeds; the updated document keeps every other
top-level item unchanged in content and order, keeps every other field of
the `SeedBDRS` section, appends exactly one new test-request entry at the
end of that section's item list, and the file is written back as the
document serialized with 2-space indentation plus a trailing newline. -/
theorem update_mvds_seed_json_appends (doc : Json) (org bpn orig : String)
    (hwf : wfSeedDoc doc = true)
    (hex : ∃ it ∈ topItems doc, isSeedBDRS it = true) :
    ∃ newDoc i, update_mvds_seed_json doc org bpn = .ok newDoc ∧
      findSeedIdx (topItems doc) = some i ∧
      isSeedBDRS ((topItems doc).getD i .null) = true ∧
      (topItems newDoc).length = (topItems doc).length ∧
      (∀ j, j ≠ i → (topItems newDoc).getD j .null = (topItems doc).getD j .null) ∧
      childItems ((topItems newDoc).getD i .null)
        = childItems ((topItems doc).getD i .null) ++ [new_bpn_mapping org] ∧
      (∀ k, k ≠ "item" → dictGet ((topItems newDoc).getD i .null) k
        = dictGet ((topItems doc).getD i .null) k) ∧
      (∀ k, k ≠ "item" → dictGet newDoc k = dictGet doc k) ∧
      update_mvds_seed_json_file orig doc org bpn = dumpJson 0 newDoc ++ "\n" := by
  have hidx : ∃ i, findSeedIdx (topItems doc) = some i := by
    rcases hfi : findSeedIdx (topItems doc) with _ | i
    · obtain ⟨it, hit, hpred⟩ := hex
      have := (findSeedIdx_none_iff _).mp hfi it hit
      rw [hpred] at this
      cases this
    · exact ⟨i, rfl⟩
  obtain ⟨i, hfi⟩ := hidx
  obtain ⟨hilt, hipred⟩ := findSeedIdx_some hfi
  have hne : topItems doc ≠ [] := by
    intro h0
    rw [h0] at hilt
    exact absurd hilt (by simp)
  obtain ⟨fs, l, hdoc, hlk, htop, hallwf⟩ := wfSeedDoc_struct hwf hne
  rw [htop] at hilt hipred
  set sec := l.getD i .null with hsec
  have hsecmem : sec ∈ l := getD_mem l i .null hilt
  have hsecwf : wfItem sec = true := hallwf sec hsecmem
  set newItems := l.set i (appendChild sec (new_bpn_mapping org)) with hnew
  set newDoc := jsonSet doc "item" (.arr newItems) with hnewDoc
  have hupd : update_mvds_seed_json doc org bpn = .ok newDoc := by
    rw [update_mvds_seed_json, hfi, htop]
  have htopnew : topItems newDoc = newItems := by
    rw [hnewDoc, hdoc]
    simp only [jsonSet, topItems, dictGet]
    rw [dictSet_slookup_self (by rw [hlk]; rfl)]
  refine ⟨newDoc, i, hupd, hfi, by rw [htop]; exact hipred, ?_, ?_, ?_, ?_, ?_, ?_⟩
  · rw [htopnew, htop, hnew, List.length_set]
  · intro j hj
    rw [htopnew, htop, hnew, getD_set_ne _ _ (fun h => hj h.symm)]
  · rw [htopnew, htop, hnew, getD_set_self _ _ hilt, ← hsec]
    exact appendChild_childItems hsecwf
  · intro k hk
    rw [htopnew, htop, hnew, getD_set_self _ _ hilt, ← hsec]
    exact appendChild_dictGet_ne hk
  · intro k hk
    rw [hnewDoc, hdoc]
    simp only [jsonSet, dictGet]
    exact dictSet_slookup_ne hk
  · rw [update_mvds_seed_json_file, hupd]

/-- C6 witness: the append characterization applied to a concrete
well-formed document with a `SeedBDRS` section. -/
theorem update_mvds_seed_json_appends_witness :
    wfSeedDoc (Json.obj [("item", Json.arr [Json.obj [("name", Json.str "SeedBDRS")]])])
      = true ∧
    (∃ it ∈ topItems (Json.obj [("item",
        Json.arr [Json.obj [("name", Json.str "SeedBDRS")]])]),
      isSeedBDRS it = true) ∧
    (∃ newDoc i, update_mvds_seed_json
        (Json.obj [("item", Json.arr [Json.obj [("name", Json.str "SeedBDRS")]])])
        "acme" "b" = .ok newDoc ∧
      findSeedIdx (topItems (Json.obj [("item",
        Json.arr [Json.obj [("name", Json.str "SeedBDRS")]])])) = some i ∧
      isSeedBDRS ((topItems (Json.obj [("item",
        Json.arr [Json.obj [("name", Json.str "SeedBDRS")]])])).getD i .null) = true ∧
      (topItems newDoc).length = (topItems (Json.obj [("item",
        Json.arr [Json.obj [("name", Json.str "SeedBDRS")]])])).length ∧
      (∀ j, j ≠ i → (topItems newDoc).getD j .null
        = (topItems (Json.obj [("item",
            Json.arr [Json.obj [("name", Json.str "SeedBDRS")]])])).getD j .null) ∧
      childItems ((topItems newDoc).getD i .null)
        = childItems ((topItems (Json.obj [("item",
            Json.arr [Json.obj [("name", Json.str "SeedBDRS")]])])).getD i .null)
          ++ [new_bpn_mapping "acme"] ∧
      (∀ k, k ≠ "item" → dictGet ((topItems newDoc).getD i .null) k
        = dictGet ((topItems (Json.obj [("item",
            Json.arr [Json.obj [("name", Json.str "SeedBDRS")]])])).getD i .null) k) ∧
      (∀ k, k ≠ "item" → dictGet newDoc k
        = dictGet (Json.obj [("item",
            Json.arr [Json.obj [("name", Json.str "SeedBDRS")]])]) k) ∧
      update_mvds_seed_json_file "orig"
        (Json.obj [("item", Json.arr [Json.obj [("name", Json.str "SeedBDRS")]])])
        "acme" "b" = dumpJson 0 newDoc ++ "\n") :=
  ⟨rfl,
   ⟨Json.obj [("name", Json.str "SeedBDRS")], by simp [topItems, dictGet, slookup], rfl⟩,
   update_mvds_seed_json_appends
     (Json.obj [("item", Json.arr [Json.obj [("name", Json.str "SeedBDRS")]])])
     "acme" "b" "orig" rfl
     ⟨Json.obj [("name", Json.str "SeedBDRS")], by simp [topItems, dictGet, slookup], rfl⟩⟩

/-! ## Lemmas about the dry-run write gate -/

theorem stepVariables_dry {args : Args} (h : args.dry_run = true)
    (v : String) (fs : FS) : stepVariables args v fs = (fs, true) := by
  simp [stepVariables, h]

theorem stepSeedData_dry {args : Args} (h : args.dry_run = true)
    (org bpn : String) (fs : FS) : stepSeedData args org bpn fs = (fs, true) := by
  simp [stepSeedData, h]

theorem stepMvds_dry {args : Args} (h : args.dry_run = true)
    (org bpn : String) (parse : String → Option Json) (fs : FS) :
    stepMvds args org bpn parse fs = (fs, true) := by
  simp [stepMvds, h]

theorem update_did_generation_dry {args : Args} (h : args.dry_run = true)
    (params : Params) (fs : FS) : update_did_generation args params fs = (fs, true) := by
  simp [update_did_generation, h]

theorem create_terraform_files_dry {args : Args} (h : args.dry_run = true)
    (render : String → Params → String) (parse : String → Option Json)
    (params : Params) (fs : FS) :
    (create_terraform_files render parse args params fs).1 = fs := by
  simp only [create_terraform_files, h, if_true, stepVariables_dry h,
    stepSeedData_dry h, stepMvds_dry h]
  rcases fsRead fs orgTemplatePath with _ | tpl
  · rfl
  · rcases fsRead fs varsTemplatePath with _ | vt
    · rfl
    · rfl

theorem create_postman_collection_dry {args : Args} (h : args.dry_run = true)
    (parse : String → Option Json) (params : Params) (fs : FS) :
    (create_postman_collection parse args params fs).1 = fs := by
  unfold create_postman_collection
  rcases fsRead fs postmanTemplatePath with _ | content
  · rfl
  · dsimp only
    rcases parse content with _ | collection
    · rfl
    · dsimp only
      rcases postmanRewrite params collection with _ | out
      · rfl
      · simp [h]

/-- C9: with the dry-run flag set, none of the three file-mutating methods
nor their sequential composition changes the file tree: every backup and
every write is skipped, and the working tree afterwards is exactly the tree
before, for every renderer, parser, parameter set, and starting tree. -/
theorem dry_run_no_writes (render : String → Params → String)
    (parse : String → Option Json) (args : Args) (params : Params) (fs : FS)
    (h : args.dry_run = true) :
    (create_terraform_files render parse args params fs).1 = fs ∧
    (update_did_generation args params fs).1 = fs ∧
    (create_postman_collection parse args params fs).1 = fs ∧
    (runFileSteps render parse args params fs).1 = fs := by
  refine ⟨create_terraform_files_dry h render parse params fs,
    by rw [update_did_generation_dry h],
    create_postman_collection_dry h parse params fs, ?_⟩
  unfold runFileSteps
  rcases hct : create_terraform_files render parse args params fs with ⟨fs1, b1⟩
  have h1 : fs1 = fs := by
    have := create_terraform_files_dry h render parse params fs
    rw [hct] at this
    exact this
  subst h1
  cases b1
  · rfl
  · dsimp only
    rw [update_did_generation_dry h]
    dsimp only
    exact create_postman_collection_dry h parse params fs1

/-- C9 witness: the dry-run frame property at a concrete argument set and
tree. -/
theorem dry_run_no_writes_witness :
    (Args.mk "companyz" none "example.com" true).dry_run = true ∧
    (runFileSteps (fun _ _ => "") (fun _ => none)
      (Args.mk "companyz" none "example.com" true)
      (Params.mk "companyz" "BPNL000000000005" "example.com" 5) []).1 = [] :=
  ⟨rfl, (dry_run_no_writes (fun _ _ => "") (fun _ => none)
    (Args.mk "companyz" none "example.com" true)
    (Params.mk "companyz" "BPNL000000000005" "example.com" 5) [] rfl).2.2.2⟩

end AwsEdc
